import Mathlib

/-!
Verification of the job-search aggregation pipeline (JobSearch repository).

The Python sources are shallowly embedded below:
* text values are `List Char` (`Text`), with Python's `str.lower`, `str.strip`,
  `str.split`, the `in` substring test and `int()` modelled as executable
  functions on character lists;
* dictionaries with optional fields become structures with `Option Text`
  fields; code that can raise (`int()` on a non-numeric token) returns
  `Except Unit _`, where `.error ()` marks the raised exception;
* dates are day numbers (`Int`), durations in the hour-based filters are hour
  counts (`Int`); network responses are supplied as explicit page/attempt
  streams so the fetch loops become pure functions.
-/

/-- Python strings, embedded as character lists. -/
abbrev Text := List Char

/-- Coerce a Lean string literal to the `Text` embedding. -/
def txt (s : String) : Text := s.data

/-- Lower-case one character (ASCII range, as `str.lower` acts on the inputs
used by the scripts). -/
def lowerCh (c : Char) : Char :=
  if 65 ≤ c.toNat ∧ c.toNat ≤ 90 then Char.ofNat (c.toNat + 32) else c

/-- Python `str.lower()`. -/
def lowerT (t : Text) : Text := t.map lowerCh

/-- Python whitespace (the characters stripped/split by `str.strip()` and
`str.split()`). -/
def isSpacePy (c : Char) : Bool :=
  c == ' ' || c == '\t' || c == '\n' || c == '\r' || c == '\x0b' || c == '\x0c'

/-- Python `str.strip()`. -/
def stripT (t : Text) : Text :=
  ((t.dropWhile isSpacePy).reverse.dropWhile isSpacePy).reverse

/-- Does the first list start with the second pattern? (helper for the Python
`in` substring test). -/
def beginsWith : Text → Text → Bool
  | [], _ => true
  | _ :: _, [] => false
  | p :: ps, c :: cs => p == c && beginsWith ps cs

/-- Python `pat in t`: substring containment. -/
def hasSub (pat : Text) : Text → Bool
  | [] => beginsWith pat []
  | c :: cs => beginsWith pat (c :: cs) || hasSub pat cs

/-- Python `t.split()[0]`: first whitespace-separated token, `none` when
`t.split()` is empty (where Python raises `IndexError`). -/
def firstToken : Text → Option Text
  | [] => none
  | c :: cs =>
    if isSpacePy c then firstToken cs
    else some (c :: cs.takeWhile (fun d => !isSpacePy d))

/-- Python `t.split()`: whitespace-separated tokens, no empties. -/
def splitWs (t : Text) : List Text :=
  match h : t.dropWhile isSpacePy with
  | [] => []
  | c :: cs =>
    (c :: cs.takeWhile (fun d => !isSpacePy d)) ::
      splitWs (cs.dropWhile (fun d => !isSpacePy d))
termination_by t.length
decreasing_by
  have h1 : (t.dropWhile isSpacePy).length ≤ t.length :=
    (List.dropWhile_sublist _).length_le
  rw [h] at h1
  have h2 : (cs.dropWhile (fun d => !isSpacePy d)).length ≤ cs.length :=
    (List.dropWhile_sublist _).length_le
  simp at h1
  omega

/-- Python `u.rstrip("s")`. -/
def rstripS (t : Text) : Text := (t.reverse.dropWhile (fun c => c == 's')).reverse

/-- Accumulating decimal parser: `none` on the first non-digit character. -/
def parseDigitsAux : Text → Nat → Option Nat
  | [], acc => some acc
  | c :: cs, acc =>
    if c.isDigit then parseDigitsAux cs (acc * 10 + (c.toNat - 48)) else none

/-- Nonempty all-digit run, else `none`. -/
def parseDigitsNE (t : Text) : Option Nat :=
  match t with
  | [] => none
  | _ => parseDigitsAux t 0

/-- Python `int(t)` on a string: strip, optional sign, nonempty digit run;
`none` models the raised `ValueError`. -/
def parseIntPy (t : Text) : Option Int :=
  match stripT t with
  | [] => none
  | c :: cs =>
    if c = '-' then (parseDigitsNE cs).map (fun n => -(n : Int))
    else if c = '+' then (parseDigitsNE cs).map (fun n => (n : Int))
    else (parseDigitsNE (c :: cs)).map (fun n => (n : Int))

/-- Decimal digit character for a value below ten. -/
def digitCh : Nat → Char
  | 0 => '0' | 1 => '1' | 2 => '2' | 3 => '3' | 4 => '4'
  | 5 => '5' | 6 => '6' | 7 => '7' | 8 => '8' | _ => '9'

/-- Decimal digit string of a natural number (most significant digit first). -/
def natDigits (n : Nat) : Text :=
  if h : n < 10 then [digitCh n] else natDigits (n / 10) ++ [digitCh (n % 10)]
termination_by n
decreasing_by
  have : 10 ≤ n := Nat.le_of_not_lt h
  omega

/-!
Query Planner, from `jobsearch/core/jobSearchByTitle.py` lines 28-30
(`chunk_list`) and `jobsearch-bck/searchJobsByTitle_bck.py` lines 204-206
(the `main` loop that turns an empty chunk list into one empty chunk).
-/

/-- Python `chunk_list(lst, size)`: `lst[i:i+size]` for `i = 0, size, 2*size, …`.
A `size` of zero makes Python's `range` raise `ValueError`; the claims only
concern `size > 0`, and we return `[]` in that unreachable branch. -/
def chunk_list : List α → Nat → List (List α)
  | _, 0 => []
  | [], _ => []
  | x :: xs, n + 1 =>
    (x :: xs).take (n + 1) :: chunk_list ((x :: xs).drop (n + 1)) (n + 1)
termination_by l _ => l.length
decreasing_by
  simp
  omega

/-- Planning step of `searchJobsByTitle_bck.main` (lines 204-206):
`domain_chunks = list(chunk_list(ats_domains, 50)); if not domain_chunks:
domain_chunks = [[]]`. -/
def plan_chunks (sites : List α) (size : Nat) : List (List α) :=
  let cs := chunk_list sites size
  if cs.isEmpty then [[]] else cs

/-!
Recency Normalizer, from `jobsearch/core/filteredJobsByTitle.py` lines 20-35:
`normalize_posted(text)` lower-cases and strips the text, returns today on an
"hour"/"minute" substring, `today - int(text.split()[0]) days` on a "day"
substring, `today - 7*int(...) days` on a "week" substring, and `None`
otherwise. `int()` on a non-numeric token raises `ValueError` (embedded as
`.error ()`); `date.today()` is passed in as the reference day number. -/
def normalize_posted (text : Text) (today : Int) : Except Unit (Option Int) :=
  let t := stripT (lowerT text)
  if hasSub (txt "hour") t || hasSub (txt "minute") t then .ok (some today)
  else if hasSub (txt "day") t then
    match firstToken t with
    | none => .error ()
    | some tok =>
      match parseIntPy tok with
      | none => .error ()
      | some n => .ok (some (today - n))
  else if hasSub (txt "week") t then
    match firstToken t with
    | none => .error ()
    | some tok =>
      match parseIntPy tok with
      | none => .error ()
      | some n => .ok (some (today - 7 * n))
  else .ok none

/-- Result of `linkedin.py`'s `normalize_posted`: either `isoformat` of a
resolved date (a date string in Python) or a raw text fallback. -/
inductive LiPosted where
  | date (d : Int)
  | raw (t : Text)
deriving DecidableEq

/-- The guarded normalizer of `jobsearch/core/linkedin.py` lines 94-111:
returns `""` on empty input, the resolved date for hour/minute/day/week
patterns, and — because the whole body is wrapped in `try/except: pass` —
falls back to the (lower-cased, stripped) text itself on any parse failure or
unrecognized pattern. -/
def normalize_posted_li (t : Text) (today : Int) : LiPosted :=
  if t = [] then .raw []
  else
    let s := stripT (lowerT t)
    let tryDate : Option Int :=
      if hasSub (txt "hour") s || hasSub (txt "minute") s then some today
      else if hasSub (txt "day") s then
        match firstToken s with
        | none => none
        | some tok => (parseIntPy tok).map (fun n => today - n)
      else if hasSub (txt "week") s then
        match firstToken s with
        | none => none
        | some tok => (parseIntPy tok).map (fun n => today - 7 * n)
      else none
    match tryDate with
    | some d => .date d
    | none => .raw s

/-- Config-to-hours mapping `parse_time_window` of
`jobsearch-bck/searchJobsByTitleAndRegion_bck.py` (default 24). -/
def parse_time_window (window : Text) : Int :=
  if window = txt "24h" then 24
  else if window = txt "48h" then 48
  else if window = txt "7d" then 168
  else 24

/-- Time filter `within_time_window` of
`jobsearch-bck/searchJobsByTitleAndRegion_bck.py` lines 22-40: empty text is
rejected; an "hour"/"day"/"week" pattern is compared (in hours, inclusive
bound) against `max_hours`; a parse failure inside the `try` falls through —
like any unrecognized pattern — to the sentinel check
("today"/"just posted"/"few hours"), and everything else is rejected. -/
def within_time_window (posted_text : Text) (max_hours : Int) : Bool :=
  if posted_text = [] then false
  else
    let t := lowerT posted_text
    let tryRes : Option Bool :=
      if hasSub (txt "hour") t then
        match firstToken t with
        | none => none
        | some tok => (parseIntPy tok).map (fun n => decide (n ≤ max_hours))
      else if hasSub (txt "day") t then
        match firstToken t with
        | none => none
        | some tok => (parseIntPy tok).map (fun n => decide (n * 24 ≤ max_hours))
      else if hasSub (txt "week") t then
        match firstToken t with
        | none => none
        | some tok => (parseIntPy tok).map (fun n => decide (n * 7 * 24 ≤ max_hours))
      else none
    match tryRes with
    | some b => b
    | none =>
      hasSub (txt "today") t || hasSub (txt "just posted") t ||
        hasSub (txt "few hours") t

/-- `TIME_WINDOW_MAP` of `jobsearch-bck/searchJobsByTitle_bck.py` lines 12-17,
as total hours, with the `.get(_, timedelta(days=7))` default. -/
def time_window_hours (s : Text) : Int :=
  if s = txt "24h" then 24
  else if s = txt "48h" then 48
  else if s = txt "7d" then 168
  else if s = txt "30d" then 720
  else 168

/-- Time filter `is_posted_within_window` of
`jobsearch-bck/searchJobsByTitle_bck.py` lines 49-75: needs at least two
whitespace tokens, an integer first token, and a second token whose
`rstrip("s")` is exactly "hour", "day" or "month" (weeks and minutes fall to
the final `return False`); durations compare in hours, months as 30 days. -/
def is_posted_within_window (posted_at : Option Text) (time_window_str : Text) :
    Bool :=
  match posted_at with
  | none => false
  | some p =>
    if p = [] then false
    else
      match splitWs (lowerT p) with
      | v :: u :: _ =>
        match parseIntPy v with
        | none => false
        | some value =>
          let unit := rstripS u
          let wh := time_window_hours time_window_str
          if unit = txt "hour" then decide (value ≤ wh)
          else if unit = txt "day" then decide (value * 24 ≤ wh)
          else if unit = txt "month" then decide (value * 30 * 24 ≤ wh)
          else false
      | _ => false

/-!
Record types. Upstream provider records are untyped dicts in Python; the
fields the code consumes are embedded as `Option Text` (string value when the
key is present, `none` when missing). Extracted job dicts always bind every
key, so they become structures with plain `Text` fields.
-/

/-- Fields of one SerpAPI organic result consumed by
`jobSearchByTitle.extract_jobs` (`locality` stands for
`item["address"]["locality"]`). -/
structure OrganicItem where
  title : Option Text
  link : Option Text
  snippet : Option Text
  source : Option Text
  location : Option Text
  locality : Option Text
  date : Option Text

/-- Job dict built by `jobSearchByTitle.extract_jobs` (lines 79-101). -/
structure Job where
  title : Text
  url : Text
  snippet : Text
  company : Text
  location : Text
  posted : Text
deriving DecidableEq

/-- Python truthiness of an optional string (`None` and `""` are falsy). -/
def truthy (o : Option Text) : Option Text :=
  match o with
  | some t => if t = [] then none else some t
  | none => none

/-- The `item.get("location") or item.get("address", {}).get("locality") or
"N/A"` chain of `extract_jobs` (lines 85-89). -/
def locOf (item : OrganicItem) : Text :=
  match truthy item.location with
  | some l => l
  | none =>
    match truthy item.locality with
    | some l => l
    | none => txt "N/A"

/-- Loop body of `extract_jobs` (lines 91-99): every key is bound, with "N/A"
for missing upstream fields. -/
def jobOfOrganic (item : OrganicItem) : Job :=
  { title := item.title.getD (txt "N/A")
    url := item.link.getD (txt "N/A")
    snippet := item.snippet.getD (txt "N/A")
    company := item.source.getD (txt "N/A")
    location := locOf item
    posted := item.date.getD (txt "N/A") }

/-- `extract_jobs(results)` of `jobsearch/core/jobSearchByTitle.py` lines
79-101 (the `if not results` guard equals the empty-list case). -/
def extract_jobs : List OrganicItem → List Job
  | [] => []
  | item :: rest => jobOfOrganic item :: extract_jobs rest

/-- Fields of one SerpAPI Google-Jobs result consumed by
`filteredJobsByTitle.extract_google_jobs`; `schedule_type`, `posted_at` and
`salary` live under `detected_extensions`, `apply_links` lists the `link`
field of each entry of `apply_options`. -/
structure GItem where
  title : Option Text
  company_name : Option Text
  location : Option Text
  description : Option Text
  schedule_type : Option Text
  posted_at : Option Text
  salary : Option Text
  apply_links : List (Option Text)

/-- Job dict built by `extract_google_jobs` (lines 136-145). -/
structure GJob where
  title : Text
  company : Text
  location : Text
  posted : Text
  salary : Text
  jobtype : Text
  url : Text
  snippet : Text
deriving DecidableEq

/-- Filter decision of the `extract_google_jobs` loop body (lines 118-130):
`posted_date = normalize_posted(posted) or after_dt` (so an unparsed date
falls back to the cutoff), postings strictly older than `after_dt` are
dropped, then the job-type keyword test runs when keywords are configured.
`normalize_posted` may raise, which propagates (`.error`). -/
def g_keep (item : GItem) (mode_keywords : List Text) (after_dt today : Int) :
    Except Unit Bool :=
  let desc := lowerT (item.description.getD [])
  let sched := lowerT (item.schedule_type.getD [])
  let posted := item.posted_at.getD (txt "N/A")
  match normalize_posted posted today with
  | .error e => .error e
  | .ok nd =>
    let posted_date := nd.getD after_dt
    if posted_date < after_dt then .ok false
    else if mode_keywords.isEmpty then .ok true
    else if mode_keywords.any (fun kw => hasSub kw desc || hasSub kw sched) then
      .ok true
    else .ok false

/-- Record build of the `extract_google_jobs` loop body (lines 132-145). -/
def gjobOf (item : GItem) : GJob :=
  { title := item.title.getD (txt "N/A")
    company := item.company_name.getD (txt "N/A")
    location := item.location.getD (txt "N/A")
    posted := item.posted_at.getD (txt "N/A")
    salary := item.salary.getD (txt "N/A")
    jobtype := lowerT (item.schedule_type.getD [])
    url := match item.apply_links with
           | link0 :: _ => link0.getD (txt "N/A")
           | [] => txt "N/A"
    snippet := item.description.getD (txt "N/A") }

/-- `extract_google_jobs` of `jobsearch/core/filteredJobsByTitle.py` lines
110-148, over the `jobs_results` item list (the `"jobs_results" not in
results` guard equals the empty-list case); `mode_keywords` stands for
`get_selected_jobtype_keywords(cfg)` and `after_dt` for the parsed
`after_date`. -/
def extract_google_jobs (items : List GItem) (mode_keywords : List Text)
    (after_dt today : Int) : Except Unit (List GJob) :=
  match items with
  | [] => .ok []
  | item :: rest =>
    match g_keep item mode_keywords after_dt today with
    | .error e => .error e
    | .ok keep =>
      match extract_google_jobs rest mode_keywords after_dt today with
      | .error e => .error e
      | .ok tail => .ok (if keep then gjobOf item :: tail else tail)

/-!
Deduplicator, `remove_duplicates` in `jobsearch/core/jobSearchByTitle.py`
lines 107-115 and (textually identical, over the richer dict) in
`jobsearch/core/filteredJobsByTitle.py` lines 154-162: a `seen` set of
`job["url"].lower().strip()` keys, first occurrence kept.
-/

/-- Canonical deduplication key: `url.lower().strip()`. -/
def canonUrl (u : Text) : Text := stripT (lowerT u)

/-- The `remove_duplicates` loop, generic in the record type; `seen` is the
Python set (membership is all that is used). -/
def dedupeGo (urlOf : α → Text) (seen : List Text) : List α → List α
  | [] => []
  | j :: rest =>
    if canonUrl (urlOf j) ∈ seen then dedupeGo urlOf seen rest
    else j :: dedupeGo urlOf (canonUrl (urlOf j) :: seen) rest

/-- `remove_duplicates` of `jobSearchByTitle.py` lines 107-115. -/
def remove_duplicates (jobs : List Job) : List Job := dedupeGo Job.url [] jobs

/-- `remove_duplicates` of `filteredJobsByTitle.py` lines 154-162. -/
def remove_duplicates_g (jobs : List GJob) : List GJob := dedupeGo GJob.url [] jobs

/-- Specification-side deduplicator, written from the spec's words ("first
occurrence of each canonical URL wins, later duplicates dropped, relative
order of surviving elements preserved"): keep the head, delete every later
record with the same canonical URL, recurse. -/
def dedupeSpec (urlOf : α → Text) : List α → List α
  | [] => []
  | j :: rest =>
    j :: dedupeSpec urlOf
      (rest.filter (fun k => decide (canonUrl (urlOf k) ≠ canonUrl (urlOf j))))
termination_by l => l.length
decreasing_by
  have h := List.length_filter_le
    (fun k => decide (canonUrl (urlOf k) ≠ canonUrl (urlOf j))) rest
  have h2 : (j :: rest).length = rest.length + 1 := rfl
  omega

/-!
LinkedIn HTML extraction, `parse_search` of `jobsearch/core/linkedin.py`
lines 144-187. A card is one `div.base-card`; each selector either finds an
element (its text, `some t`) or not (`none`); missing selectors yield
empty-string fields.
-/

/-- Selector results for one result card. -/
structure Card where
  title : Option Text
  company : Option Text
  location : Option Text
  posted : Option Text
  href : Option Text

/-- Row dict built by `parse_search` (lines 176-185). -/
structure LiRow where
  title : Text
  company : Text
  location : Text
  job_type : Text
  posted : LiPosted
  posted_raw : Text
  rate : Text
  url : Text
deriving DecidableEq

/-- Loop body of `parse_search` for one card. `rateOf` is the oracle for
`extract_rate(fetch_job_description(url))` — a network + regex boundary that
always yields a string; with rate scraping disabled the rate is `""`. -/
def rowOfCard (c : Card) (job_type : Text) (remote_mode : Bool)
    (enable_rate : Bool) (rateOf : Text → Text) (today : Int) : LiRow :=
  let posted_raw := match c.posted with | some t => stripT t | none => []
  let posted := normalize_posted_li posted_raw today
  let loc0 := match c.location with | some t => stripT t | none => []
  let loc := if remote_mode then txt "Remote" else loc0
  let url := match c.href with
             | some h => h.takeWhile (fun ch => decide (ch ≠ '?'))
             | none => []
  let rate := if enable_rate && !url.isEmpty then rateOf url else []
  { title := match c.title with | some t => stripT t | none => []
    company := match c.company with | some t => stripT t | none => []
    location := loc
    job_type := job_type
    posted := posted
    posted_raw := posted_raw
    rate := rate
    url := url }

/-- `parse_search` over the card list. -/
def parse_search (cards : List Card) (job_type : Text) (remote_mode : Bool)
    (enable_rate : Bool) (rateOf : Text → Text) (today : Int) : List LiRow :=
  cards.map (fun c => rowOfCard c job_type remote_mode enable_rate rateOf today)

/-!
Paginated Fetcher, `search_jobs` of `jobsearch-bck/searchJobsByTitle_bck.py`
lines 86-133. The provider is a stream of page responses indexed by call
number (the continuation token is opaque; what the loop observes is its
presence). The loop: for each of `max_pages` iterations, issue a call; a
non-OK status breaks (`raise_for_status` + `except`); an empty `jobs_results`
breaks; results are extended; a missing continuation token breaks.
-/

/-- One page response: HTTP status, `jobs_results`, and the
`serpapi_pagination.next_page_token` field. -/
structure PageResp (α : Type) where
  status : Nat
  jobs : List α
  next_token : Option Nat

/-- The fetch loop: remaining page budget, number of calls already made,
accumulated results; returns (all_results, total calls issued). -/
def fetchGo (provider : Nat → PageResp α) : Nat → Nat → List α → List α × Nat
  | 0, calls, acc => (acc, calls)
  | n + 1, calls, acc =>
    let page := provider calls
    if page.status ≠ 200 then (acc, calls + 1)
    else if page.jobs.isEmpty then (acc, calls + 1)
    else
      match page.next_token with
      | none => (acc ++ page.jobs, calls + 1)
      | some _ => fetchGo provider n (calls + 1) (acc ++ page.jobs)

/-- `search_jobs(query, date_posted_param, max_pages)` with the HTTP boundary
abstracted into `provider`. -/
def search_jobs_paged (provider : Nat → PageResp α) (max_pages : Nat) :
    List α × Nat :=
  fetchGo provider max_pages 0 []

/-- Jobs of `count` consecutive pages starting at call index `start`. -/
def collectJobs (provider : Nat → PageResp α) : Nat → Nat → List α
  | _, 0 => []
  | start, n + 1 => (provider start).jobs ++ collectJobs provider (start + 1) n

/-- A page that lets the loop continue: OK status, non-empty results, and a
continuation token. -/
def goodPage (p : PageResp α) : Prop :=
  p.status = 200 ∧ p.jobs ≠ [] ∧ p.next_token ≠ none

/-!
Retry loop, `serpapi_search` of `jobsearch/core/jobSearchByTitle.py` lines
51-73 (and the textually identical `serpapi_jobs_search` of
`filteredJobsByTitle.py` lines 82-104): up to `max_retries` attempts; a 429
waits `5 * (attempt + 1)` seconds and retries; any other failure
(`raise_for_status` on a 4xx/5xx, timeouts — here: any non-2xx/3xx status)
is caught and waits `3 * (attempt + 1)`; success returns the JSON payload;
exhaustion returns `None` (never raises past the function). -/

/-- The retry loop over a stream of (status, payload) attempt results;
returns the outcome and the list of waits performed, in order. -/
def serpGo (resp : Nat → Nat × α) : Nat → Nat → List Nat → Option α × List Nat
  | 0, _, waits => (none, waits.reverse)
  | n + 1, attempt, waits =>
    let r := resp attempt
    if r.1 = 429 then serpGo resp n (attempt + 1) (5 * (attempt + 1) :: waits)
    else if 400 ≤ r.1 ∧ r.1 < 600 then
      serpGo resp n (attempt + 1) (3 * (attempt + 1) :: waits)
    else (some r.2, waits.reverse)

/-- `serpapi_search(query, api_key, max_retries)` with the HTTP boundary
abstracted into `resp`. -/
def serpapi_search (resp : Nat → Nat × α) (max_retries : Nat) :
    Option α × List Nat :=
  serpGo resp max_retries 0 []

/-!
Aggregation Accumulator / output gating, `run_for_job` of
`jobsearch/core/jobSearchByTitle.py` lines 161-186: per-chunk extracted jobs
are concatenated, deduplicated, and `if not unique: return wb` skips both the
TXT report and the Excel sheet; the caller's loop over titles continues
regardless.
-/

/-- Artifact decision for one job title given its per-chunk extracted job
lists: `none` means no TXT file and no sheet are produced, `some u` means
both are produced from the unique sequence `u`. -/
def run_for_job_artifact (chunkResults : List (List Job)) : Option (List Job) :=
  let unique := remove_duplicates chunkResults.flatten
  if unique.isEmpty then none else some unique

/-- The `main` loop over job titles (lines 276-280): each title is processed
in turn, producing one artifact decision per title. -/
def main_artifacts (titles : List (List (List Job))) : List (Option (List Job)) :=
  titles.map run_for_job_artifact

/-! Sample concrete records, used to exercise the extractors and the
deduplicator on non-empty inputs. -/

/-- An organic result with a present title/link/source, an empty (falsy)
`location`, a present `address.locality`, and missing snippet/date. -/
def sampleOrganic : OrganicItem :=
  { title := some (txt "Dev"), link := some (txt "http://x/1"),
    snippet := none, source := some (txt "Acme"),
    location := some [], locality := some (txt "NYC"), date := none }

/-- A Google-Jobs result posted "2 days ago" with an apply link and a
mixed-case schedule type. -/
def sampleGItem : GItem :=
  { title := some (txt "T"), company_name := none, location := none,
    description := some (txt "desc"), schedule_type := some (txt "Full-time"),
    posted_at := some (txt "2 days ago"), salary := none,
    apply_links := [some (txt "http://apply/1")] }

/-- A LinkedIn card with padded title/posted text and a query string on the
detail link. -/
def sampleCard : Card :=
  { title := some (txt " T1 "), company := none, location := some (txt "Loc"),
    posted := some (txt "2 days ago "), href := some (txt "http://a?b") }

/-- A posting with a non-empty URL, preceding the empty-URL ones. -/
def jobP : Job :=
  { title := txt "P", url := txt "http://p", snippet := [], company := [],
    location := [], posted := [] }

/-- The first posting with an empty URL. -/
def jobE1 : Job :=
  { title := txt "J1", url := [], snippet := [], company := [],
    location := [], posted := [] }

/-- A second posting with an empty URL. -/
def jobE2 : Job :=
  { title := txt "J2", url := [], snippet := [], company := [],
    location := [], posted := [] }

/-- A third posting with an empty URL. -/
def jobE3 : Job :=
  { title := txt "J3", url := [], snippet := [], company := [],
    location := [], posted := [] }

/-! Theorems. -/

theorem chunk_list_nil (n : Nat) : chunk_list ([] : List α) n = [] := by
  cases n <;> simp [chunk_list]

theorem chunk_list_flatten (l : List α) (n : Nat) (hn : 0 < n) :
    (chunk_list l n).flatten = l := by
  induction l, n using chunk_list.induct with
  | case1 l => omega
  | case2 n => rw [chunk_list_nil]; rfl
  | case3 x xs n ih =>
    rw [chunk_list, List.flatten_cons, ih (by omega)]
    exact List.take_append_drop _ _

theorem chunk_list_length (l : List α) (n : Nat) (hn : 0 < n) (hl : l ≠ []) :
    (chunk_list l n).length = (l.length + n - 1) / n := by
  induction l, n using chunk_list.induct with
  | case1 l => omega
  | case2 n => simp at hl
  | case3 x xs n ih =>
    rw [chunk_list]
    by_cases hdrop : (x :: xs).drop (n + 1) = []
    · have hle : xs.length + 1 ≤ n + 1 := by
        have := List.drop_eq_nil_iff.mp hdrop
        simpa using this
      rw [hdrop, chunk_list_nil]
      simp only [List.length_cons, List.length_nil]
      symm
      exact Nat.div_eq_of_lt_le (by omega) (by omega)
    · have hgt : n + 1 < xs.length + 1 := by
        have : ¬((x :: xs).length ≤ n + 1) := fun h =>
          hdrop (List.drop_eq_nil_iff.mpr h)
        simpa using this
      rw [List.length_cons, ih (by omega) hdrop]
      have hlen : ((x :: xs).drop (n + 1)).length = xs.length + 1 - (n + 1) := by
        simp [List.length_drop]
      rw [hlen]
      have harith : xs.length + 1 - (n + 1) + (n + 1) - 1 + (n + 1)
          = xs.length + 1 + (n + 1) - 1 := by omega
      calc (xs.length + 1 - (n + 1) + (n + 1) - 1) / (n + 1) + 1
          = (xs.length + 1 - (n + 1) + (n + 1) - 1 + (n + 1)) / (n + 1) := by
            rw [Nat.add_div_right _ (by omega)]
        _ = (xs.length + 1 + (n + 1) - 1) / (n + 1) := by rw [harith]

theorem chunk_list_chunk_le (l : List α) (n : Nat) :
    ∀ c ∈ chunk_list l n, c.length ≤ n := by
  induction l, n using chunk_list.induct with
  | case1 l => rw [chunk_list]; simp
  | case2 n => rw [chunk_list_nil]; simp
  | case3 x xs n ih =>
    rw [chunk_list]
    intro c hc
    rcases List.mem_cons.mp hc with h | h
    · subst h
      simpa using List.length_take_le _ _
    · exact ih c h

theorem chunk_list_dropLast_full (l : List α) (n : Nat) (hn : 0 < n) :
    ∀ c ∈ (chunk_list l n).dropLast, c.length = n := by
  induction l, n using chunk_list.induct with
  | case1 l => omega
  | case2 n => simp [chunk_list]
  | case3 x xs n ih =>
    rw [chunk_list]
    intro c hc
    by_cases hdrop : (x :: xs).drop (n + 1) = []
    · rw [hdrop, chunk_list_nil] at hc
      simp at hc
    · have hne : chunk_list ((x :: xs).drop (n + 1)) (n + 1) ≠ [] := by
        intro hnil
        have hfl := chunk_list_flatten ((x :: xs).drop (n + 1)) (n + 1) (by omega)
        rw [hnil, List.flatten_nil] at hfl
        exact hdrop hfl.symm
      rw [List.dropLast_cons_of_ne_nil hne] at hc
      rcases List.mem_cons.mp hc with h | h
      · subst h
        have hgt : n + 1 < (x :: xs).length := by
          by_contra hle
          exact hdrop (List.drop_eq_nil_iff.mpr (by omega))
        rw [List.length_take]
        omega
      · exact ih (by omega) c h

/-- C1: for every site list and every chunk size C > 0 the planner
(`chunk_list` plus the empty-chunk fallback of `searchJobsByTitle_bck.main`)
produces `⌈L/C⌉` chunks (one empty chunk when `L = 0`), concatenating the
chunks in order gives back the input (so every site is in exactly one chunk
and chunk order matches input order), every chunk has at most C sites and all
chunks except possibly the last have exactly C. -/
theorem chunking_plan_correct (l : List α) (C : Nat) (hC : 0 < C) :
    (plan_chunks l C).length = (if l.length = 0 then 1 else (l.length + C - 1) / C)
    ∧ (plan_chunks l C).flatten = l
    ∧ (∀ c ∈ plan_chunks l C, c.length ≤ C)
    ∧ (∀ c ∈ (plan_chunks l C).dropLast, c.length = C) := by
  unfold plan_chunks
  by_cases hl : l = []
  · subst hl
    simp [chunk_list_nil]
  · have hne : ¬(chunk_list l C).isEmpty = true := by
      intro hemp
      have hnil : chunk_list l C = [] := by
        simpa [List.isEmpty_iff] using hemp
      have := chunk_list_flatten l C hC
      rw [hnil] at this
      exact hl this.symm
    simp only [hne, if_neg, Bool.false_eq_true, not_false_eq_true, if_neg]
    refine ⟨?_, chunk_list_flatten l C hC, chunk_list_chunk_le l C,
      chunk_list_dropLast_full l C hC⟩
    have hlen : l.length ≠ 0 := by
      intro h0
      exact hl (List.eq_nil_of_length_eq_zero h0)
    rw [if_neg hlen]
    exact chunk_list_length l C hC hl

theorem chunking_plan_correct_witness :
    0 < 2
    ∧ ((plan_chunks [10, 20, 30] 2).length
        = (if ([10, 20, 30] : List Nat).length = 0 then 1 else (3 + 2 - 1) / 2)
      ∧ (plan_chunks [10, 20, 30] 2).flatten = [10, 20, 30]
      ∧ (∀ c ∈ plan_chunks [10, 20, 30] 2, c.length ≤ 2)
      ∧ (∀ c ∈ (plan_chunks ([10, 20, 30] : List Nat) 2).dropLast, c.length = 2)) :=
  ⟨by decide, chunking_plan_correct [10, 20, 30] 2 (by decide)⟩

/-! Character and digit-string facts. -/

theorem digitCh_bounds (r : Nat) (h : r < 10) :
    48 ≤ (digitCh r).toNat ∧ (digitCh r).toNat ≤ 57 := by
  interval_cases r <;> decide

theorem digitCh_isDigit (r : Nat) (h : r < 10) : (digitCh r).isDigit = true := by
  interval_cases r <;> decide

theorem digitCh_toNat (r : Nat) (h : r < 10) : (digitCh r).toNat = 48 + r := by
  interval_cases r <;> decide

theorem natDigits_bounds (n : Nat) :
    ∀ c ∈ natDigits n, 48 ≤ c.toNat ∧ c.toNat ≤ 57 := by
  induction n using Nat.strong_induction_on with
  | _ n ih =>
    rw [natDigits]
    by_cases h : n < 10
    · rw [dif_pos h]
      intro c hc
      rw [List.mem_singleton] at hc
      subst hc
      exact digitCh_bounds n h
    · rw [dif_neg h]
      intro c hc
      rcases List.mem_append.mp hc with h1 | h1
      · exact ih (n / 10) (by omega) c h1
      · rw [List.mem_singleton] at h1
        subst h1
        exact digitCh_bounds _ (Nat.mod_lt _ (by omega))

theorem natDigits_ne_nil (n : Nat) : natDigits n ≠ [] := by
  rw [natDigits]
  split <;> simp

theorem isSpacePy_eq_false_of_digit {c : Char}
    (h : 48 ≤ c.toNat ∧ c.toNat ≤ 57) : isSpacePy c = false := by
  simp only [isSpacePy, Bool.or_eq_false_iff, beq_eq_false_iff_ne]
  refine ⟨⟨⟨⟨⟨?_, ?_⟩, ?_⟩, ?_⟩, ?_⟩, ?_⟩ <;>
    (intro heq; subst heq; exact absurd h (by decide))

theorem lowerCh_eq_self_of_digit {c : Char}
    (h : 48 ≤ c.toNat ∧ c.toNat ≤ 57) : lowerCh c = c := by
  unfold lowerCh
  rw [if_neg]
  omega

theorem lowerT_append (l1 l2 : Text) :
    lowerT (l1 ++ l2) = lowerT l1 ++ lowerT l2 := List.map_append _ _ _

theorem lowerT_of_digits (l : Text)
    (h : ∀ c ∈ l, 48 ≤ c.toNat ∧ c.toNat ≤ 57) : lowerT l = l := by
  unfold lowerT
  induction l with
  | nil => rfl
  | cons c cs ih =>
    rw [List.map_cons, lowerCh_eq_self_of_digit (h c (by simp)),
      ih (fun d hd => h d (by simp [hd]))]

theorem lowerT_digits (n : Nat) : lowerT (natDigits n) = natDigits n :=
  lowerT_of_digits _ (natDigits_bounds n)

/-! `dropWhile`/`takeWhile`/`stripT`/`firstToken` facts. -/

theorem dropWhile_eq_self_of_head (p : Char → Bool) (l : Text)
    (h : ∀ c, l.head? = some c → p c = false) : l.dropWhile p = l := by
  cases l with
  | nil => rfl
  | cons c cs =>
    rw [List.dropWhile_cons, if_neg]
    simp [h c rfl]

theorem stripT_eq_self_of_ends (t : Text)
    (h1 : ∀ c, t.head? = some c → isSpacePy c = false)
    (h2 : ∀ c, t.getLast? = some c → isSpacePy c = false) : stripT t = t := by
  unfold stripT
  rw [dropWhile_eq_self_of_head _ _ h1]
  rw [dropWhile_eq_self_of_head _ _ (by
    intro c hc
    rw [List.head?_reverse] at hc
    exact h2 c hc)]
  exact List.reverse_reverse t

theorem stripT_noSpace (t : Text) (h : ∀ c ∈ t, isSpacePy c = false) :
    stripT t = t := by
  apply stripT_eq_self_of_ends
  · intro c hc
    exact h c (by cases t with
      | nil => simp at hc
      | cons a l => rw [List.head?_cons, Option.some_inj] at hc; simp [hc])
  · intro c hc
    exact h c (List.mem_of_mem_getLast? hc)

theorem takeWhile_nospace_append (ds rest : Text)
    (h : ∀ c ∈ ds, isSpacePy c = false) :
    (ds ++ ' ' :: rest).takeWhile (fun d => !isSpacePy d) = ds := by
  induction ds with
  | nil => simp [List.takeWhile_cons, isSpacePy]
  | cons d ds ih =>
    rw [List.cons_append, List.takeWhile_cons, if_pos (by simp [h d (by simp)]),
      ih (fun c hc => h c (by simp [hc]))]

theorem firstToken_append (ds rest : Text) (hne : ds ≠ [])
    (h : ∀ c ∈ ds, isSpacePy c = false) :
    firstToken (ds ++ ' ' :: rest) = some ds := by
  cases ds with
  | nil => exact absurd rfl hne
  | cons d ds' =>
    rw [List.cons_append, firstToken]
    rw [if_neg (by simp [h d (by simp)])]
    rw [takeWhile_nospace_append ds' rest (fun c hc => h c (by simp [hc]))]

/-! Decimal parsing of digit strings. -/

theorem parseDigitsAux_append (l1 l2 : Text) (a : Nat) :
    parseDigitsAux (l1 ++ l2) a =
      match parseDigitsAux l1 a with
      | some m => parseDigitsAux l2 m
      | none => none := by
  induction l1 generalizing a with
  | nil => rfl
  | cons c cs ih =>
    rw [List.cons_append]
    by_cases h : c.isDigit
    · simp only [parseDigitsAux, h, if_true, ih]
    · simp only [parseDigitsAux, h, if_false]
      simp [h]

theorem parseDigitsAux_natDigits (n : Nat) :
    ∀ a, parseDigitsAux (natDigits n) a
      = some (a * 10 ^ (natDigits n).length + n) := by
  induction n using Nat.strong_induction_on with
  | _ n ih =>
    intro a
    rw [natDigits]
    by_cases h : n < 10
    · rw [dif_pos h]
      simp only [parseDigitsAux, digitCh_isDigit n h, if_true,
        digitCh_toNat n h, List.length_singleton]
      congr 1
      omega
    · rw [dif_neg h]
      rw [parseDigitsAux_append]
      rw [ih (n / 10) (by omega) a]
      have h10 : n % 10 < 10 := Nat.mod_lt _ (by omega)
      simp only [parseDigitsAux, digitCh_isDigit _ h10, if_true,
        digitCh_toNat _ h10, List.length_append, List.length_singleton]
      congr 1
      rw [pow_succ]
      have hmod : 10 * (n / 10) + n % 10 = n := Nat.div_add_mod n 10
      set L := (natDigits (n / 10)).length
      ring_nf
      omega

theorem parseDigitsNE_natDigits (n : Nat) :
    parseDigitsNE (natDigits n) = some n := by
  unfold parseDigitsNE
  have hne := natDigits_ne_nil n
  cases hd : natDigits n with
  | nil => exact absurd hd hne
  | cons c cs =>
    rw [← hd, parseDigitsAux_natDigits n 0]
    simp

theorem parseIntPy_natDigits (n : Nat) :
    parseIntPy (natDigits n) = some (n : Int) := by
  have hb := natDigits_bounds n
  have hs : stripT (natDigits n) = natDigits n :=
    stripT_noSpace _ (fun c hc => isSpacePy_eq_false_of_digit (hb c hc))
  unfold parseIntPy
  rw [hs]
  cases hd : natDigits n with
  | nil => exact absurd hd (natDigits_ne_nil n)
  | cons c cs =>
    have hc : 48 ≤ c.toNat ∧ c.toNat ≤ 57 := hb c (by simp [hd])
    dsimp only
    rw [if_neg (by intro he; subst he; exact absurd hc (by decide))]
    rw [if_neg (by intro he; subst he; exact absurd hc (by decide))]
    rw [← hd, parseDigitsNE_natDigits n]
    rfl

/-! Substring (`in`) facts. -/

theorem beginsWith_cons_ne (p c : Char) (ps cs : Text) (h : c ≠ p) :
    beginsWith (p :: ps) (c :: cs) = false := by
  have hb : (p == c) = false := by
    simp only [beq_eq_false_iff_ne]
    exact fun he => h he.symm
  simp [beginsWith, hb]

theorem hasSub_cons_ne (p c : Char) (ps cs : Text) (h : c ≠ p) :
    hasSub (p :: ps) (c :: cs) = hasSub (p :: ps) cs := by
  rw [hasSub, beginsWith_cons_ne p c ps cs h, Bool.false_or]

theorem hasSub_append_skip (p : Char) (ps rest : Text) (ds : Text)
    (h : ∀ d ∈ ds, d ≠ p) :
    hasSub (p :: ps) (ds ++ rest) = hasSub (p :: ps) rest := by
  induction ds with
  | nil => rfl
  | cons d ds ih =>
    rw [List.cons_append, hasSub_cons_ne p d ps _ (h d (by simp)),
      ih (fun e he => h e (by simp [he]))]

theorem hasSub_append_right (pat ds rest : Text) (h : hasSub pat rest = true) :
    hasSub pat (ds ++ rest) = true := by
  induction ds with
  | nil => exact h
  | cons d ds ih =>
    rw [List.cons_append]
    show (beginsWith pat (d :: (ds ++ rest)) || hasSub pat (ds ++ rest)) = true
    rw [ih, Bool.or_true]

theorem digit_ne_char (n : Nat) (p : Char) (hp : 58 ≤ p.toNat) :
    ∀ d ∈ natDigits n, d ≠ p := by
  intro d hd he
  have hb := natDigits_bounds n d hd
  subst he
  omega

/-! Recency-normalizer resolution lemmas. -/

theorem natDigits_nospace (N : Nat) :
    ∀ c ∈ natDigits N, isSpacePy c = false :=
  fun c hc => isSpacePy_eq_false_of_digit (natDigits_bounds N c hc)

theorem head?_append_left (l1 l2 : Text) (hne : l1 ≠ []) :
    (l1 ++ l2).head? = l1.head? := by
  cases l1 with
  | nil => exact absurd rfl hne
  | cons a l => rfl

theorem strip_lower_digits_append (N : Nat) (sfx : Text) (e : Char)
    (hsfx : lowerT sfx = sfx) (hlast : sfx.getLast? = some e)
    (he : isSpacePy e = false) :
    stripT (lowerT (natDigits N ++ sfx)) = natDigits N ++ sfx := by
  rw [lowerT_append, lowerT_digits, hsfx]
  apply stripT_eq_self_of_ends
  · intro c hc
    rw [head?_append_left _ _ (natDigits_ne_nil N)] at hc
    have hcmem : c ∈ natDigits N := by
      cases hnd : natDigits N with
      | nil => exact absurd hnd (natDigits_ne_nil N)
      | cons a l =>
        rw [hnd, List.head?_cons, Option.some_inj] at hc
        rw [← hc]
        simp
    exact isSpacePy_eq_false_of_digit (natDigits_bounds N c hcmem)
  · intro c hc
    have hsne : sfx ≠ [] := by
      intro h0
      rw [h0] at hlast
      simp at hlast
    rw [List.getLast?_append_of_ne_nil _ hsne, hlast, Option.some_inj] at hc
    rw [← hc]
    exact he

theorem lower_digits_append (N : Nat) (sfx : Text) (hsfx : lowerT sfx = sfx) :
    lowerT (natDigits N ++ sfx) = natDigits N ++ sfx := by
  rw [lowerT_append, lowerT_digits, hsfx]

theorem np_hours (D : Int) (N : Nat) :
    normalize_posted (natDigits N ++ txt " hours ago") D = .ok (some D) := by
  have hprep := strip_lower_digits_append N (txt " hours ago") 'o'
    (by decide) (by decide) (by decide)
  have hhour : hasSub (txt "hour") (natDigits N ++ txt " hours ago") = true :=
    hasSub_append_right _ _ _ (by decide)
  simp [normalize_posted, hprep, hhour]

theorem np_minutes (D : Int) (N : Nat) :
    normalize_posted (natDigits N ++ txt " minutes ago") D = .ok (some D) := by
  have hprep := strip_lower_digits_append N (txt " minutes ago") 'o'
    (by decide) (by decide) (by decide)
  have hhour : hasSub (txt "hour") (natDigits N ++ txt " minutes ago") = false := by
    rw [show txt "hour" = 'h' :: txt "our" from rfl,
      hasSub_append_skip 'h' (txt "our") (txt " minutes ago") (natDigits N)
        (digit_ne_char N 'h' (by decide))]
    decide
  have hmin : hasSub (txt "minute") (natDigits N ++ txt " minutes ago") = true :=
    hasSub_append_right _ _ _ (by decide)
  simp [normalize_posted, hprep, hhour, hmin]

theorem np_days (D : Int) (N : Nat) :
    normalize_posted (natDigits N ++ txt " days ago") D
      = .ok (some (D - (N : Int))) := by
  have hprep := strip_lower_digits_append N (txt " days ago") 'o'
    (by decide) (by decide) (by decide)
  have hhour : hasSub (txt "hour") (natDigits N ++ txt " days ago") = false := by
    rw [show txt "hour" = 'h' :: txt "our" from rfl,
      hasSub_append_skip 'h' (txt "our") (txt " days ago") (natDigits N)
        (digit_ne_char N 'h' (by decide))]
    decide
  have hmin : hasSub (txt "minute") (natDigits N ++ txt " days ago") = false := by
    rw [show txt "minute" = 'm' :: txt "inute" from rfl,
      hasSub_append_skip 'm' (txt "inute") (txt " days ago") (natDigits N)
        (digit_ne_char N 'm' (by decide))]
    decide
  have hday : hasSub (txt "day") (natDigits N ++ txt " days ago") = true :=
    hasSub_append_right _ _ _ (by decide)
  have hft : firstToken (natDigits N ++ txt " days ago") = some (natDigits N) := by
    rw [show txt " days ago" = ' ' :: txt "days ago" from rfl]
    exact firstToken_append _ _ (natDigits_ne_nil N) (natDigits_nospace N)
  simp [normalize_posted, hprep, hhour, hmin, hday, hft, parseIntPy_natDigits]

theorem np_weeks (D : Int) (N : Nat) :
    normalize_posted (natDigits N ++ txt " weeks ago") D
      = .ok (some (D - 7 * (N : Int))) := by
  have hprep := strip_lower_digits_append N (txt " weeks ago") 'o'
    (by decide) (by decide) (by decide)
  have hhour : hasSub (txt "hour") (natDigits N ++ txt " weeks ago") = false := by
    rw [show txt "hour" = 'h' :: txt "our" from rfl,
      hasSub_append_skip 'h' (txt "our") (txt " weeks ago") (natDigits N)
        (digit_ne_char N 'h' (by decide))]
    decide
  have hmin : hasSub (txt "minute") (natDigits N ++ txt " weeks ago") = false := by
    rw [show txt "minute" = 'm' :: txt "inute" from rfl,
      hasSub_append_skip 'm' (txt "inute") (txt " weeks ago") (natDigits N)
        (digit_ne_char N 'm' (by decide))]
    decide
  have hday : hasSub (txt "day") (natDigits N ++ txt " weeks ago") = false := by
    rw [show txt "day" = 'd' :: txt "ay" from rfl,
      hasSub_append_skip 'd' (txt "ay") (txt " weeks ago") (natDigits N)
        (digit_ne_char N 'd' (by decide))]
    decide
  have hweek : hasSub (txt "week") (natDigits N ++ txt " weeks ago") = true :=
    hasSub_append_right _ _ _ (by decide)
  have hft : firstToken (natDigits N ++ txt " weeks ago") = some (natDigits N) := by
    rw [show txt " weeks ago" = ' ' :: txt "weeks ago" from rfl]
    exact firstToken_append _ _ (natDigits_ne_nil N) (natDigits_nospace N)
  simp [normalize_posted, hprep, hhour, hmin, hday, hweek, hft,
    parseIntPy_natDigits]

theorem np_months (D : Int) (N : Nat) :
    normalize_posted (natDigits N ++ txt " months ago") D = .ok none := by
  have hprep := strip_lower_digits_append N (txt " months ago") 'o'
    (by decide) (by decide) (by decide)
  have hhour : hasSub (txt "hour") (natDigits N ++ txt " months ago") = false := by
    rw [show txt "hour" = 'h' :: txt "our" from rfl,
      hasSub_append_skip 'h' (txt "our") (txt " months ago") (natDigits N)
        (digit_ne_char N 'h' (by decide))]
    decide
  have hmin : hasSub (txt "minute") (natDigits N ++ txt " months ago") = false := by
    rw [show txt "minute" = 'm' :: txt "inute" from rfl,
      hasSub_append_skip 'm' (txt "inute") (txt " months ago") (natDigits N)
        (digit_ne_char N 'm' (by decide))]
    decide
  have hday : hasSub (txt "day") (natDigits N ++ txt " months ago") = false := by
    rw [show txt "day" = 'd' :: txt "ay" from rfl,
      hasSub_append_skip 'd' (txt "ay") (txt " months ago") (natDigits N)
        (digit_ne_char N 'd' (by decide))]
    decide
  have hweek : hasSub (txt "week") (natDigits N ++ txt " months ago") = false := by
    rw [show txt "week" = 'w' :: txt "eek" from rfl,
      hasSub_append_skip 'w' (txt "eek") (txt " months ago") (natDigits N)
        (digit_ne_char N 'w' (by decide))]
    decide
  simp [normalize_posted, hprep, hhour, hmin, hday, hweek]

/-! `splitWs` computation lemmas. -/

theorem takeWhile_all (p : Char → Bool) (l : Text) (h : ∀ c ∈ l, p c = true) :
    l.takeWhile p = l := by
  induction l with
  | nil => rfl
  | cons c cs ih =>
    rw [List.takeWhile_cons, if_pos (h c (by simp)),
      ih (fun d hd => h d (by simp [hd]))]

theorem dropWhile_all (p : Char → Bool) (l : Text) (h : ∀ c ∈ l, p c = true) :
    l.dropWhile p = [] := by
  induction l with
  | nil => rfl
  | cons c cs ih =>
    rw [List.dropWhile_cons, if_pos (h c (by simp))]
    exact ih (fun d hd => h d (by simp [hd]))

theorem dropWhile_nospace_append (ds rest : Text)
    (h : ∀ c ∈ ds, isSpacePy c = false) :
    (ds ++ ' ' :: rest).dropWhile (fun d => !isSpacePy d) = ' ' :: rest := by
  induction ds with
  | nil => rw [List.nil_append, List.dropWhile_cons, if_neg (by decide)]
  | cons d ds ih =>
    rw [List.cons_append, List.dropWhile_cons, if_pos (by simp [h d (by simp)])]
    exact ih (fun c hc => h c (by simp [hc]))

theorem splitWs_eq (t : Text) :
    splitWs t =
      match t.dropWhile isSpacePy with
      | [] => []
      | c :: cs =>
        (c :: cs.takeWhile (fun d => !isSpacePy d)) ::
          splitWs (cs.dropWhile (fun d => !isSpacePy d)) := by
  rw [splitWs]
  cases hd : List.dropWhile isSpacePy t with
  | nil => rfl
  | cons c cs => rfl

theorem splitWs_nil : splitWs [] = [] := by
  rw [splitWs_eq]
  rfl

theorem splitWs_cons_space (rest : Text) :
    splitWs (' ' :: rest) = splitWs rest := by
  rw [splitWs_eq, List.dropWhile_cons, if_pos (by decide)]
  exact (splitWs_eq rest).symm

theorem splitWs_single (ds : Text) (hne : ds ≠ [])
    (h : ∀ c ∈ ds, isSpacePy c = false) : splitWs ds = [ds] := by
  rw [splitWs_eq]
  cases ds with
  | nil => exact absurd rfl hne
  | cons d ds' =>
    rw [dropWhile_eq_self_of_head _ _ (by
      intro c hc
      rw [List.head?_cons, Option.some_inj] at hc
      subst hc
      exact h d (by simp))]
    dsimp only
    rw [takeWhile_all _ _ (fun c hc => by simp [h c (by simp [hc])]),
      dropWhile_all _ _ (fun c hc => by simp [h c (by simp [hc])]), splitWs_nil]

theorem splitWs_token (ds rest : Text) (hne : ds ≠ [])
    (h : ∀ c ∈ ds, isSpacePy c = false) :
    splitWs (ds ++ ' ' :: rest) = ds :: splitWs rest := by
  rw [splitWs_eq]
  cases ds with
  | nil => exact absurd rfl hne
  | cons d ds' =>
    rw [List.cons_append]
    rw [dropWhile_eq_self_of_head _ _ (by
      intro c hc
      rw [List.head?_cons, Option.some_inj] at hc
      subst hc
      exact h d (by simp))]
    dsimp only
    rw [takeWhile_nospace_append ds' rest (fun c hc => h c (by simp [hc])),
      dropWhile_nospace_append ds' rest (fun c hc => h c (by simp [hc])),
      splitWs_cons_space]

/-! `is_posted_within_window` resolution lemmas. -/

theorem ipw_months (w : Text) (N : Nat) :
    is_posted_within_window (some (natDigits N ++ txt " months ago")) w
      = decide ((N : Int) * 30 * 24 ≤ time_window_hours w) := by
  have hlow := lower_digits_append N (txt " months ago") (by decide)
  have hne : ¬(natDigits N ++ txt " months ago" = []) := by
    intro h
    exact natDigits_ne_nil N (List.append_eq_nil.mp h).1
  have hsplit : splitWs (natDigits N ++ txt " months ago")
      = natDigits N :: splitWs (txt "months ago") := by
    rw [show txt " months ago" = ' ' :: txt "months ago" from rfl]
    exact splitWs_token _ _ (natDigits_ne_nil N) (natDigits_nospace N)
  have hsplit2 : splitWs (txt "months ago") = [txt "months", txt "ago"] := by
    rw [show txt "months ago" = txt "months" ++ ' ' :: txt "ago" from rfl,
      splitWs_token _ _ (by decide) (by decide),
      splitWs_single _ (by decide) (by decide)]
  simp +decide [is_posted_within_window, hne, hlow, hsplit, hsplit2,
    parseIntPy_natDigits, show rstripS (txt "months") = txt "month" from by decide]

theorem ipw_weeks (w : Text) (N : Nat) :
    is_posted_within_window (some (natDigits N ++ txt " weeks ago")) w
      = false := by
  have hlow := lower_digits_append N (txt " weeks ago") (by decide)
  have hne : ¬(natDigits N ++ txt " weeks ago" = []) := by
    intro h
    exact natDigits_ne_nil N (List.append_eq_nil.mp h).1
  have hsplit : splitWs (natDigits N ++ txt " weeks ago")
      = natDigits N :: splitWs (txt "weeks ago") := by
    rw [show txt " weeks ago" = ' ' :: txt "weeks ago" from rfl]
    exact splitWs_token _ _ (natDigits_ne_nil N) (natDigits_nospace N)
  have hsplit2 : splitWs (txt "weeks ago") = [txt "weeks", txt "ago"] := by
    rw [show txt "weeks ago" = txt "weeks" ++ ' ' :: txt "ago" from rfl,
      splitWs_token _ _ (by decide) (by decide),
      splitWs_single _ (by decide) (by decide)]
  simp +decide [is_posted_within_window, hne, hlow, hsplit, hsplit2,
    parseIntPy_natDigits, show rstripS (txt "weeks") = txt "week" from by decide]

/-! `within_time_window` resolution lemmas. -/

theorem wtw_hours (mh : Int) (N : Nat) :
    within_time_window (natDigits N ++ txt " hours ago") mh
      = decide ((N : Int) ≤ mh) := by
  have hlow := lower_digits_append N (txt " hours ago") (by decide)
  have hne : ¬(natDigits N ++ txt " hours ago" = []) := fun h =>
    natDigits_ne_nil N (List.append_eq_nil.mp h).1
  have hhour : hasSub (txt "hour") (natDigits N ++ txt " hours ago") = true :=
    hasSub_append_right _ _ _ (by decide)
  have hft : firstToken (natDigits N ++ txt " hours ago") = some (natDigits N) := by
    rw [show txt " hours ago" = ' ' :: txt "hours ago" from rfl]
    exact firstToken_append _ _ (natDigits_ne_nil N) (natDigits_nospace N)
  simp [within_time_window, hne, hlow, hhour, hft, parseIntPy_natDigits]

theorem wtw_days (mh : Int) (N : Nat) :
    within_time_window (natDigits N ++ txt " days ago") mh
      = decide ((N : Int) * 24 ≤ mh) := by
  have hlow := lower_digits_append N (txt " days ago") (by decide)
  have hne : ¬(natDigits N ++ txt " days ago" = []) := fun h =>
    natDigits_ne_nil N (List.append_eq_nil.mp h).1
  have hhour : hasSub (txt "hour") (natDigits N ++ txt " days ago") = false := by
    rw [show txt "hour" = 'h' :: txt "our" from rfl,
      hasSub_append_skip 'h' (txt "our") (txt " days ago") (natDigits N)
        (digit_ne_char N 'h' (by decide))]
    decide
  have hday : hasSub (txt "day") (natDigits N ++ txt " days ago") = true :=
    hasSub_append_right _ _ _ (by decide)
  have hft : firstToken (natDigits N ++ txt " days ago") = some (natDigits N) := by
    rw [show txt " days ago" = ' ' :: txt "days ago" from rfl]
    exact firstToken_append _ _ (natDigits_ne_nil N) (natDigits_nospace N)
  simp [within_time_window, hne, hlow, hhour, hday, hft, parseIntPy_natDigits]

theorem wtw_weeks (mh : Int) (N : Nat) :
    within_time_window (natDigits N ++ txt " weeks ago") mh
      = decide ((N : Int) * 7 * 24 ≤ mh) := by
  have hlow := lower_digits_append N (txt " weeks ago") (by decide)
  have hne : ¬(natDigits N ++ txt " weeks ago" = []) := fun h =>
    natDigits_ne_nil N (List.append_eq_nil.mp h).1
  have hhour : hasSub (txt "hour") (natDigits N ++ txt " weeks ago") = false := by
    rw [show txt "hour" = 'h' :: txt "our" from rfl,
      hasSub_append_skip 'h' (txt "our") (txt " weeks ago") (natDigits N)
        (digit_ne_char N 'h' (by decide))]
    decide
  have hday : hasSub (txt "day") (natDigits N ++ txt " weeks ago") = false := by
    rw [show txt "day" = 'd' :: txt "ay" from rfl,
      hasSub_append_skip 'd' (txt "ay") (txt " weeks ago") (natDigits N)
        (digit_ne_char N 'd' (by decide))]
    decide
  have hweek : hasSub (txt "week") (natDigits N ++ txt " weeks ago") = true :=
    hasSub_append_right _ _ _ (by decide)
  have hft : firstToken (natDigits N ++ txt " weeks ago") = some (natDigits N) := by
    rw [show txt " weeks ago" = ' ' :: txt "weeks ago" from rfl]
    exact firstToken_append _ _ (natDigits_ne_nil N) (natDigits_nospace N)
  simp [within_time_window, hne, hlow, hhour, hday, hweek, hft,
    parseIntPy_natDigits]

/-! `g_keep` resolution lemmas. -/

theorem g_keep_days (it : GItem) (K : Nat) (after D : Int)
    (hposted : it.posted_at = some (natDigits K ++ txt " days ago")) :
    g_keep it [] after D = .ok (decide (after ≤ D - (K : Int))) := by
  simp only [g_keep, hposted, Option.getD_some, np_days, Option.getD_some,
    List.isEmpty_nil]
  by_cases h : D - (K : Int) < after
  · rw [if_pos h, decide_eq_false (by omega : ¬(after ≤ D - (K : Int)))]
  · rw [if_neg h, if_pos trivial, decide_eq_true (by omega : after ≤ D - (K : Int))]

theorem g_keep_unknown (it : GItem) (after D : Int)
    (hposted : it.posted_at = some (txt "banana")) :
    g_keep it [] after D = .ok true := by
  simp only [g_keep, hposted, Option.getD_some,
    show normalize_posted (txt "banana") D = .ok none from rfl,
    Option.getD_none, List.isEmpty_nil]
  rw [if_neg (by omega : ¬(after < after)), if_pos trivial]

/-- C3 counterexample: the normalizer of `filteredJobsByTitle.py` resolves
"3 months ago" to `None` ("unknown"), not to `reference_date − 90 days` as the
claim states; the sentinel phrase "just posted" also resolves to `None`
rather than to the reference date. -/
theorem recency_month_unknown_cex :
    normalize_posted (txt "3 months ago") 0 = .ok none
    ∧ normalize_posted (txt "3 months ago") 0 ≠ .ok (some (0 - 30 * 3))
    ∧ normalize_posted (txt "just posted") 0 = .ok none := by
  refine ⟨rfl, ?_, rfl⟩
  intro h
  rw [show normalize_posted (txt "3 months ago") 0 = Except.ok none from rfl] at h
  simp at h

/-- C3 (amended): for every reference date D and positive N, `normalize_posted`
resolves "N hours ago" and "N minutes ago" to D, "N days ago" to D − N days
and "N weeks ago" to D − 7N days; but "N months ago" resolves to the unknown
sentinel (there is no month branch), and of the sentinel phrases only
"few hours ago" resolves to D — "just posted" resolves to unknown and "today"
raises `ValueError`. Months are handled only by the separate bck filter
`is_posted_within_window` (as 30 days against the configured window), which in
turn rejects every "N weeks ago" text. -/
theorem recency_patterns_amended (D : Int) (N : Nat) (hN : 0 < N) :
    normalize_posted (natDigits N ++ txt " hours ago") D = .ok (some D)
    ∧ normalize_posted (natDigits N ++ txt " minutes ago") D = .ok (some D)
    ∧ normalize_posted (natDigits N ++ txt " days ago") D
        = .ok (some (D - (N : Int)))
    ∧ normalize_posted (natDigits N ++ txt " weeks ago") D
        = .ok (some (D - 7 * (N : Int)))
    ∧ normalize_posted (natDigits N ++ txt " months ago") D = .ok none
    ∧ normalize_posted (txt "few hours ago") D = .ok (some D)
    ∧ normalize_posted (txt "just posted") D = .ok none
    ∧ normalize_posted (txt "today") D = .error ()
    ∧ (∀ w, is_posted_within_window (some (natDigits N ++ txt " months ago")) w
        = decide ((N : Int) * 30 * 24 ≤ time_window_hours w))
    ∧ (∀ w, is_posted_within_window (some (natDigits N ++ txt " weeks ago")) w
        = false) :=
  ⟨np_hours D N, np_minutes D N, np_days D N, np_weeks D N, np_months D N,
    rfl, rfl, rfl, fun w => ipw_months w N, fun w => ipw_weeks w N⟩

theorem recency_patterns_amended_witness :
    0 < 3
    ∧ (normalize_posted (natDigits 3 ++ txt " hours ago") 0 = .ok (some 0)
      ∧ normalize_posted (natDigits 3 ++ txt " minutes ago") 0 = .ok (some 0)
      ∧ normalize_posted (natDigits 3 ++ txt " days ago") 0
          = .ok (some (0 - (3 : Int)))
      ∧ normalize_posted (natDigits 3 ++ txt " weeks ago") 0
          = .ok (some (0 - 7 * (3 : Int)))
      ∧ normalize_posted (natDigits 3 ++ txt " months ago") 0 = .ok none
      ∧ normalize_posted (txt "few hours ago") 0 = .ok (some 0)
      ∧ normalize_posted (txt "just posted") 0 = .ok none
      ∧ normalize_posted (txt "today") 0 = .error ()
      ∧ (∀ w, is_posted_within_window (some (natDigits 3 ++ txt " months ago")) w
          = decide ((3 : Int) * 30 * 24 ≤ time_window_hours w))
      ∧ (∀ w, is_posted_within_window (some (natDigits 3 ++ txt " weeks ago")) w
          = false)) :=
  ⟨by decide, recency_patterns_amended 0 3 (by decide)⟩

/-- C4: contrary to the claim (and to §4.3/§7 of the design, which require the
normalizer to be total and never raise), `normalize_posted` of
`filteredJobsByTitle.py` raises `ValueError` on the input "today": "day" is a
substring of "today", so the code runs `int("today".split()[0])`, which
raises. The sibling normalizer in `linkedin.py` wraps the same logic in
`try/except` and instead returns the text itself, confirming that raising is
a slip, not the intent. -/
theorem normalize_posted_raises_on_today :
    normalize_posted (txt "today") 0 = .error ()
    ∧ normalize_posted (txt "yesterday") 0 = .error ()
    ∧ normalize_posted_li (txt "today") 0 = .raw (txt "today")
    ∧ normalize_posted (txt "banana") 0 = .ok none :=
  ⟨rfl, rfl, rfl, rfl⟩

/-- C2 counterexample: `extract_google_jobs` keeps a posting whose posted-at
text does not resolve to any date ("banana" → unknown): the unknown date is
replaced by the cutoff `after_dt` itself and therefore passes the window
test, contradicting "a posting whose resolved date is unknown is excluded". -/
theorem unknown_date_included_cex :
    extract_google_jobs
      [{ title := some (txt "T"), company_name := none, location := none,
         description := none, schedule_type := none,
         posted_at := some (txt "banana"), salary := none, apply_links := [] }]
      [] 100 0
    = .ok [{ title := txt "T", company := txt "N/A", location := txt "N/A",
             posted := txt "banana", salary := txt "N/A", jobtype := [],
             url := txt "N/A", snippet := txt "N/A" }] := rfl

/-- C2 (amended): the two result-filter variants agree on resolved dates —
a posting exactly at the window bound passes, a strictly older one fails
(inclusive lower bound) — but disagree on unknown dates.
`within_time_window` (bck region script) passes "N hours/days/weeks ago"
exactly when the age is at most the window, rejects unrecognized text such as
"banana", and accepts the sentinel "today"; the `extract_google_jobs` filter
keeps a posting exactly when its resolved date is ≥ `after_dt`, where an
unknown resolved date is replaced by `after_dt` itself and the posting is
therefore included, not excluded. -/
theorem window_filter_amended (mh after D : Int) (N K : Nat) (it : GItem)
    (hposted : it.posted_at = some (natDigits K ++ txt " days ago")) :
    within_time_window (natDigits N ++ txt " hours ago") mh
        = decide ((N : Int) ≤ mh)
    ∧ within_time_window (natDigits N ++ txt " days ago") mh
        = decide ((N : Int) * 24 ≤ mh)
    ∧ within_time_window (natDigits N ++ txt " weeks ago") mh
        = decide ((N : Int) * 7 * 24 ≤ mh)
    ∧ within_time_window (txt "banana") mh = false
    ∧ within_time_window (txt "today") mh = true
    ∧ g_keep it [] after D = .ok (decide (after ≤ D - (K : Int)))
    ∧ (∀ it2 : GItem, it2.posted_at = some (txt "banana") →
        g_keep it2 [] after D = .ok true) :=
  ⟨wtw_hours mh N, wtw_days mh N, wtw_weeks mh N, rfl, rfl,
    g_keep_days it K after D hposted,
    fun it2 h2 => g_keep_unknown it2 after D h2⟩

theorem window_filter_amended_witness :
    ({ title := none, company_name := none, location := none,
       description := none, schedule_type := none,
       posted_at := some (natDigits 2 ++ txt " days ago"), salary := none,
       apply_links := [] } : GItem).posted_at
        = some (natDigits 2 ++ txt " days ago")
    ∧ (within_time_window (natDigits 5 ++ txt " hours ago") 24
          = decide ((5 : Int) ≤ 24)
      ∧ within_time_window (natDigits 5 ++ txt " days ago") 24
          = decide ((5 : Int) * 24 ≤ 24)
      ∧ within_time_window (natDigits 5 ++ txt " weeks ago") 24
          = decide ((5 : Int) * 7 * 24 ≤ 24)
      ∧ within_time_window (txt "banana") 24 = false
      ∧ within_time_window (txt "today") 24 = true
      ∧ g_keep { title := none, company_name := none, location := none,
                 description := none, schedule_type := none,
                 posted_at := some (natDigits 2 ++ txt " days ago"),
                 salary := none, apply_links := [] } [] 8 10
          = .ok (decide ((8 : Int) ≤ 10 - (2 : Int)))
      ∧ (∀ it2 : GItem, it2.posted_at = some (txt "banana") →
          g_keep it2 [] 8 10 = .ok true)) :=
  ⟨rfl, window_filter_amended 24 8 10 5 2 _ rfl⟩

/-! Deduplicator lemmas. -/

theorem dedupeGo_sublist (urlOf : α → Text) (seen : List Text) (l : List α) :
    (dedupeGo urlOf seen l).Sublist l := by
  induction l generalizing seen with
  | nil => simp [dedupeGo]
  | cons j rest ih =>
    rw [dedupeGo]
    by_cases h : canonUrl (urlOf j) ∈ seen
    · rw [if_pos h]
      exact (ih seen).cons j
    · rw [if_neg h]
      exact (ih _).cons₂ j

theorem dedupeGo_not_seen (urlOf : α → Text) (seen : List Text) (l : List α) :
    ∀ j ∈ dedupeGo urlOf seen l, canonUrl (urlOf j) ∉ seen := by
  induction l generalizing seen with
  | nil => simp [dedupeGo]
  | cons j rest ih =>
    rw [dedupeGo]
    by_cases h : canonUrl (urlOf j) ∈ seen
    · rw [if_pos h]
      exact ih seen
    · rw [if_neg h]
      intro k hk
      rcases List.mem_cons.mp hk with h1 | h1
      · subst h1
        exact h
      · intro hmem
        exact ih _ k h1 (List.mem_cons_of_mem _ hmem)

theorem dedupeGo_pairwise (urlOf : α → Text) (seen : List Text) (l : List α) :
    List.Pairwise (fun a b => canonUrl (urlOf a) ≠ canonUrl (urlOf b))
      (dedupeGo urlOf seen l) := by
  induction l generalizing seen with
  | nil => simp [dedupeGo]
  | cons j rest ih =>
    rw [dedupeGo]
    by_cases h : canonUrl (urlOf j) ∈ seen
    · rw [if_pos h]
      exact ih seen
    · rw [if_neg h]
      refine List.Pairwise.cons ?_ (ih _)
      intro b hb heq
      exact dedupeGo_not_seen urlOf _ rest b hb
        (by rw [← heq]; exact List.mem_cons_self _ _)

theorem dedupeGo_id (urlOf : α → Text) (l : List α) : ∀ (seen : List Text),
    List.Pairwise (fun a b => canonUrl (urlOf a) ≠ canonUrl (urlOf b)) l →
    (∀ j ∈ l, canonUrl (urlOf j) ∉ seen) →
    dedupeGo urlOf seen l = l := by
  induction l with
  | nil => intro seen _ _; simp [dedupeGo]
  | cons j rest ih =>
    intro seen hp hs
    rw [dedupeGo, if_neg (hs j (by simp))]
    congr 1
    apply ih _ (List.pairwise_cons.mp hp).2
    intro k hk hmem
    rcases List.mem_cons.mp hmem with h1 | h1
    · exact (List.pairwise_cons.mp hp).1 k hk h1.symm
    · exact hs k (by simp [hk]) h1

theorem dedupeGo_eq_spec (urlOf : α → Text) (l : List α) :
    ∀ seen, dedupeGo urlOf seen l
      = dedupeSpec urlOf
          (l.filter (fun j => decide (canonUrl (urlOf j) ∉ seen))) := by
  induction l with
  | nil => intro seen; simp [dedupeGo, dedupeSpec]
  | cons j rest ih =>
    intro seen
    rw [dedupeGo, List.filter_cons]
    by_cases h : canonUrl (urlOf j) ∈ seen
    · rw [if_pos h, if_neg (by simp [h])]
      exact ih seen
    · rw [if_neg h, if_pos (by simp [h])]
      rw [dedupeSpec, List.filter_filter]
      rw [ih (canonUrl (urlOf j) :: seen)]
      congr 1
      congr 1
      apply List.filter_congr
      intro k _
      by_cases hk : canonUrl (urlOf k) = canonUrl (urlOf j)
      · simp [hk]
      · by_cases hk2 : canonUrl (urlOf k) ∈ seen <;> simp [hk, hk2]

/-- C6: the deduplicator of `filteredJobsByTitle.py` equals the spec's
first-occurrence-wins deduplication (`dedupeSpec`), is idempotent, returns a
sub-sequence of its input (so relative order of survivors is preserved and
later duplicates are dropped), and returns any sequence without duplicate
canonical (lower-cased, stripped) URLs unchanged. -/
theorem dedupe_stable_idempotent (l : List GJob) :
    remove_duplicates_g l = dedupeSpec GJob.url l
    ∧ remove_duplicates_g (remove_duplicates_g l) = remove_duplicates_g l
    ∧ (remove_duplicates_g l).Sublist l
    ∧ (List.Pairwise (fun a b => canonUrl a.url ≠ canonUrl b.url) l →
        remove_duplicates_g l = l) := by
  refine ⟨?_, ?_, dedupeGo_sublist _ _ _, ?_⟩
  · have h := dedupeGo_eq_spec GJob.url l []
    simpa [remove_duplicates_g] using h
  · exact dedupeGo_id _ _ _ (dedupeGo_pairwise _ _ _) (by simp)
  · intro hp
    exact dedupeGo_id _ _ _ hp (by simp)

theorem dedupe_stable_idempotent_witness :
    remove_duplicates_g
        ([⟨[], [], [], [], [], [], txt "A", []⟩, ⟨[], [], [], [], [], [], txt "b", []⟩] : List GJob)
        = dedupeSpec GJob.url
          ([⟨[], [], [], [], [], [], txt "A", []⟩, ⟨[], [], [], [], [], [], txt "b", []⟩] : List GJob)
    ∧ remove_duplicates_g (remove_duplicates_g
        ([⟨[], [], [], [], [], [], txt "A", []⟩, ⟨[], [], [], [], [], [], txt "b", []⟩] : List GJob))
        = remove_duplicates_g
          ([⟨[], [], [], [], [], [], txt "A", []⟩, ⟨[], [], [], [], [], [], txt "b", []⟩] : List GJob)
    ∧ (remove_duplicates_g
        ([⟨[], [], [], [], [], [], txt "A", []⟩, ⟨[], [], [], [], [], [], txt "b", []⟩] : List GJob)).Sublist
        ([⟨[], [], [], [], [], [], txt "A", []⟩, ⟨[], [], [], [], [], [], txt "b", []⟩] : List GJob)
    ∧ (List.Pairwise (fun a b => canonUrl a.url ≠ canonUrl b.url)
          ([⟨[], [], [], [], [], [], txt "A", []⟩, ⟨[], [], [], [], [], [], txt "b", []⟩] : List GJob) →
        remove_duplicates_g
          ([⟨[], [], [], [], [], [], txt "A", []⟩, ⟨[], [], [], [], [], [], txt "b", []⟩] : List GJob)
          = ([⟨[], [], [], [], [], [], txt "A", []⟩, ⟨[], [], [], [], [], [], txt "b", []⟩] : List GJob)) :=
  dedupe_stable_idempotent
    ([⟨[], [], [], [], [], [], txt "A", []⟩, ⟨[], [], [], [], [], [], txt "b", []⟩] : List GJob)

/-- C5 counterexample: two distinct postings that both have an empty URL are
deduplicated against each other by `remove_duplicates` — both canonicalize to
the empty key, so the second is dropped — contradicting "every such posting
is kept". -/
theorem empty_url_merged_cex :
    remove_duplicates
        [⟨txt "J1", [], [], [], [], []⟩, ⟨txt "J2", [], [], [], [], []⟩]
      = [⟨txt "J1", [], [], [], [], []⟩]
    ∧ (⟨txt "J1", [], [], [], [], []⟩ : Job) ≠ ⟨txt "J2", [], [], [], [], []⟩ :=
  ⟨rfl, by decide⟩

theorem dedupeGo_keeps_first (urlOf : α → Text) :
    ∀ (pre : List α) (seen : List Text) (a : α) (suf : List α),
      canonUrl (urlOf a) ∉ seen →
      (∀ p ∈ pre, canonUrl (urlOf p) ≠ canonUrl (urlOf a)) →
      a ∈ dedupeGo urlOf seen (pre ++ a :: suf) := by
  intro pre
  induction pre with
  | nil =>
    intro seen a suf ha _
    rw [List.nil_append, dedupeGo, if_neg ha]
    simp
  | cons p pre ih =>
    intro seen a suf ha hpre
    rw [List.cons_append, dedupeGo]
    by_cases hp : canonUrl (urlOf p) ∈ seen
    · rw [if_pos hp]
      exact ih seen a suf ha (fun q hq => hpre q (by simp [hq]))
    · rw [if_neg hp]
      refine List.mem_cons_of_mem _ ?_
      refine ih _ a suf ?_ (fun q hq => hpre q (by simp [hq]))
      intro hmem
      rcases List.mem_cons.mp hmem with h1 | h1
      · exact hpre p (by simp) h1.symm
      · exact ha h1

theorem filter_key_of_pairwise (urlOf : α → Text) (key : Text) :
    ∀ (l : List α) (a : α),
      List.Pairwise (fun x y => canonUrl (urlOf x) ≠ canonUrl (urlOf y)) l →
      a ∈ l → canonUrl (urlOf a) = key →
      l.filter (fun j => canonUrl (urlOf j) == key) = [a] := by
  intro l
  induction l with
  | nil =>
    intro a _ ha _
    simp at ha
  | cons x xs ih =>
    intro a hp hmem hkey
    rcases List.mem_cons.mp hmem with h1 | h1
    · subst h1
      rw [List.filter_cons, if_pos (by simp [hkey])]
      have hnil : xs.filter (fun j => canonUrl (urlOf j) == key) = [] := by
        apply List.filter_eq_nil_iff.mpr
        intro y hy
        have hne := (List.pairwise_cons.mp hp).1 y hy
        rw [hkey] at hne
        simp [hne.symm]
      rw [hnil]
    · have hx : canonUrl (urlOf x) ≠ key := by
        have hne := (List.pairwise_cons.mp hp).1 a h1
        rw [hkey] at hne
        exact hne
      rw [List.filter_cons, if_neg (by simp [hx])]
      exact ih a (List.pairwise_cons.mp hp).2 h1 hkey

/-- C5 (amended): postings with an empty canonical URL are deduplicated
against each other exactly like any other shared canonical URL: in any
posting sequence — postings with non-empty URLs before it, anything after
it — the first empty-URL posting survives deduplication and is the only
survivor whose canonical URL is empty, so every later empty-URL posting is
dropped. -/
theorem empty_url_dedupe_amended (pre : List Job) (a : Job) (suf : List Job)
    (ha : canonUrl a.url = []) (hpre : ∀ p ∈ pre, canonUrl p.url ≠ []) :
    a ∈ remove_duplicates (pre ++ a :: suf)
    ∧ (remove_duplicates (pre ++ a :: suf)).filter
        (fun j => canonUrl j.url == ([] : Text)) = [a] := by
  have hmem : a ∈ remove_duplicates (pre ++ a :: suf) :=
    dedupeGo_keeps_first Job.url pre [] a suf (by simp)
      (fun p hp => by rw [ha]; exact hpre p hp)
  exact ⟨hmem, filter_key_of_pairwise Job.url [] _ a
    (dedupeGo_pairwise _ _ _) hmem ha⟩

theorem empty_url_dedupe_amended_witness :
    canonUrl jobE1.url = []
    ∧ (∀ p ∈ [jobP], canonUrl p.url ≠ [])
    ∧ (jobE1 ∈ remove_duplicates ([jobP] ++ jobE1 :: [jobE2, jobE3])
      ∧ (remove_duplicates ([jobP] ++ jobE1 :: [jobE2, jobE3])).filter
          (fun j => canonUrl j.url == ([] : Text)) = [jobE1]) :=
  ⟨rfl, by decide, empty_url_dedupe_amended [jobP] jobE1 [jobE2, jobE3]
    rfl (by decide)⟩

/-! Paginated-fetcher lemmas. -/

theorem fetchGo_all_good (provider : Nat → PageResp α) :
    ∀ (n c : Nat) (acc : List α),
      (∀ i, i < n → goodPage (provider (c + i))) →
      fetchGo provider n c acc = (acc ++ collectJobs provider c n, c + n) := by
  intro n
  induction n with
  | zero =>
    intro c acc _
    simp [fetchGo, collectJobs]
  | succ n ih =>
    intro c acc hg
    have h0 := hg 0 (by omega)
    rw [Nat.add_zero] at h0
    obtain ⟨hs, hj, ht⟩ := h0
    rw [fetchGo, if_neg (fun hne => hne hs), if_neg (by simp [hj])]
    cases htok : (provider c).next_token with
    | none => exact absurd htok ht
    | some tk =>
      rw [ih (c + 1) (acc ++ (provider c).jobs) (fun i hi => by
        have := hg (i + 1) (by omega)
        rwa [show c + (i + 1) = c + 1 + i from by omega] at this)]
      rw [collectJobs]
      rw [List.append_assoc]
      simp only [Prod.mk.injEq]
      exact ⟨trivial, by omega⟩

theorem fetchGo_stop_empty (provider : Nat → PageResp α) :
    ∀ (k n c : Nat) (acc : List α), k < n →
      (∀ i, i < k → goodPage (provider (c + i))) →
      (provider (c + k)).status = 200 →
      (provider (c + k)).jobs = [] →
      fetchGo provider n c acc = (acc ++ collectJobs provider c k, c + k + 1) := by
  intro k
  induction k with
  | zero =>
    intro n c acc hkn _ hs hj
    obtain ⟨n', rfl⟩ : ∃ n', n = n' + 1 := ⟨n - 1, by omega⟩
    rw [Nat.add_zero] at hs hj
    rw [fetchGo, if_neg (fun hne => hne hs), if_pos (by simp [hj])]
    simp [collectJobs]
  | succ k ih =>
    intro n c acc hkn hg hs hj
    obtain ⟨n', rfl⟩ : ∃ n', n = n' + 1 := ⟨n - 1, by omega⟩
    have h0 := hg 0 (by omega)
    rw [Nat.add_zero] at h0
    obtain ⟨hs0, hj0, ht0⟩ := h0
    rw [fetchGo, if_neg (fun hne => hne hs0), if_neg (by simp [hj0])]
    cases htok : (provider c).next_token with
    | none => exact absurd htok ht0
    | some tk =>
      rw [ih n' (c + 1) (acc ++ (provider c).jobs) (by omega)
        (fun i hi => by
          have := hg (i + 1) (by omega)
          rwa [show c + (i + 1) = c + 1 + i from by omega] at this)
        (by rwa [show c + 1 + k = c + (k + 1) from by omega])
        (by rwa [show c + 1 + k = c + (k + 1) from by omega])]
      rw [collectJobs]
      rw [List.append_assoc]
      simp only [Prod.mk.injEq]
      exact ⟨trivial, by omega⟩

theorem fetchGo_stop_token (provider : Nat → PageResp α) :
    ∀ (k n c : Nat) (acc : List α), k < n →
      (∀ i, i < k → goodPage (provider (c + i))) →
      (provider (c + k)).status = 200 →
      (provider (c + k)).jobs ≠ [] →
      (provider (c + k)).next_token = none →
      fetchGo provider n c acc
        = (acc ++ collectJobs provider c (k + 1), c + k + 1) := by
  intro k
  induction k with
  | zero =>
    intro n c acc hkn _ hs hj ht
    obtain ⟨n', rfl⟩ : ∃ n', n = n' + 1 := ⟨n - 1, by omega⟩
    rw [Nat.add_zero] at hs hj ht
    rw [fetchGo, if_neg (fun hne => hne hs), if_neg (by simp [hj]), ht]
    rw [collectJobs, collectJobs]
    simp
  | succ k ih =>
    intro n c acc hkn hg hs hj ht
    obtain ⟨n', rfl⟩ : ∃ n', n = n' + 1 := ⟨n - 1, by omega⟩
    have h0 := hg 0 (by omega)
    rw [Nat.add_zero] at h0
    obtain ⟨hs0, hj0, ht0⟩ := h0
    rw [fetchGo, if_neg (fun hne => hne hs0), if_neg (by simp [hj0])]
    cases htok : (provider c).next_token with
    | none => exact absurd htok ht0
    | some tk =>
      rw [ih n' (c + 1) (acc ++ (provider c).jobs) (by omega)
        (fun i hi => by
          have := hg (i + 1) (by omega)
          rwa [show c + (i + 1) = c + 1 + i from by omega] at this)
        (by rwa [show c + 1 + k = c + (k + 1) from by omega])
        (by rwa [show c + 1 + k = c + (k + 1) from by omega])
        (by rwa [show c + 1 + k = c + (k + 1) from by omega])]
      rw [show collectJobs provider c (k + 1 + 1)
          = (provider c).jobs ++ collectJobs provider (c + 1) (k + 1) from rfl]
      rw [List.append_assoc]
      simp only [Prod.mk.injEq]
      exact ⟨trivial, by omega⟩

/-- C7: the paginated fetcher of `searchJobsByTitle_bck.py` issues one call
per page and stops at the first of: a non-empty page budget exhausted
(`max_pages` calls when every page is OK, non-empty and carries a
continuation token), a page with zero results (stopping right after it, in
particular after exactly one call when the first page is empty), or a page
without a continuation token; the accumulated results are exactly the jobs of
the pages fetched before the stop. -/
theorem pagination_termination (provider : Nat → PageResp α) (m : Nat)
    (hm : 1 ≤ m) :
    ((∀ i, i < m → goodPage (provider i)) →
        search_jobs_paged provider m = (collectJobs provider 0 m, m))
    ∧ ((provider 0).status = 200 → (provider 0).jobs = [] →
        search_jobs_paged provider m = ([], 1))
    ∧ (∀ k, k < m → (∀ i, i < k → goodPage (provider i)) →
        (provider k).status = 200 → (provider k).jobs = [] →
        search_jobs_paged provider m = (collectJobs provider 0 k, k + 1))
    ∧ (∀ k, k < m → (∀ i, i < k → goodPage (provider i)) →
        (provider k).status = 200 → (provider k).jobs ≠ [] →
        (provider k).next_token = none →
        search_jobs_paged provider m = (collectJobs provider 0 (k + 1), k + 1)) := by
  refine ⟨?_, ?_, ?_, ?_⟩
  · intro hg
    have h := fetchGo_all_good provider m 0 [] (fun i hi => by
      simpa using hg i hi)
    simpa [search_jobs_paged] using h
  · intro hs hj
    have h := fetchGo_stop_empty provider 0 m 0 [] hm
      (fun i hi => absurd hi (by omega)) (by simpa using hs) (by simpa using hj)
    simpa [search_jobs_paged, collectJobs] using h
  · intro k hk hg hs hj
    have h := fetchGo_stop_empty provider k m 0 [] hk
      (fun i hi => by simpa using hg i hi) (by simpa using hs) (by simpa using hj)
    simpa [search_jobs_paged] using h
  · intro k hk hg hs hj ht
    have h := fetchGo_stop_token provider k m 0 [] hk
      (fun i hi => by simpa using hg i hi) (by simpa using hs) (by simpa using hj)
      (by simpa using ht)
    simpa [search_jobs_paged] using h

theorem pagination_termination_witness :
    1 ≤ 3
    ∧ (((∀ i, i < 3 → goodPage ((fun _ => PageResp.mk 200 [0] (some 7)) i)) →
        search_jobs_paged (fun _ => PageResp.mk 200 [(0 : Nat)] (some 7)) 3
          = (collectJobs (fun _ => PageResp.mk 200 [0] (some 7)) 0 3, 3))
      ∧ (((fun _ => PageResp.mk 200 [(0 : Nat)] (some 7)) 0).status = 200 →
          ((fun _ => PageResp.mk 200 [(0 : Nat)] (some 7)) 0).jobs = [] →
          search_jobs_paged (fun _ => PageResp.mk 200 [(0 : Nat)] (some 7)) 3 = ([], 1))
      ∧ (∀ k, k < 3 →
          (∀ i, i < k → goodPage ((fun _ => PageResp.mk 200 [(0 : Nat)] (some 7)) i)) →
          ((fun _ => PageResp.mk 200 [(0 : Nat)] (some 7)) k).status = 200 →
          ((fun _ => PageResp.mk 200 [(0 : Nat)] (some 7)) k).jobs = [] →
          search_jobs_paged (fun _ => PageResp.mk 200 [(0 : Nat)] (some 7)) 3
            = (collectJobs (fun _ => PageResp.mk 200 [(0 : Nat)] (some 7)) 0 k, k + 1))
      ∧ (∀ k, k < 3 →
          (∀ i, i < k → goodPage ((fun _ => PageResp.mk 200 [(0 : Nat)] (some 7)) i)) →
          ((fun _ => PageResp.mk 200 [(0 : Nat)] (some 7)) k).status = 200 →
          ((fun _ => PageResp.mk 200 [(0 : Nat)] (some 7)) k).jobs ≠ [] →
          ((fun _ => PageResp.mk 200 [(0 : Nat)] (some 7)) k).next_token = none →
          search_jobs_paged (fun _ => PageResp.mk 200 [(0 : Nat)] (some 7)) 3
            = (collectJobs (fun _ => PageResp.mk 200 [(0 : Nat)] (some 7)) 0 (k + 1), k + 1))) :=
  ⟨by decide, pagination_termination (fun _ => PageResp.mk 200 [(0 : Nat)] (some 7)) 3 (by decide)⟩

/-! Retry lemmas. -/

theorem serpGo_all_429 (resp : Nat → Nat × α) :
    ∀ (n attempt : Nat) (waits : List Nat),
      (∀ i, i < n → (resp (attempt + i)).1 = 429) →
      serpGo resp n attempt waits
        = (none, waits.reverse
            ++ (List.range n).map (fun i => 5 * (attempt + i + 1))) := by
  intro n
  induction n with
  | zero =>
    intro attempt waits _
    simp [serpGo]
  | succ n ih =>
    intro attempt waits hr
    have h0 := hr 0 (by omega)
    rw [Nat.add_zero] at h0
    rw [serpGo, if_pos h0]
    rw [ih (attempt + 1) (5 * (attempt + 1) :: waits) (fun i hi => by
      have := hr (i + 1) (by omega)
      rwa [show attempt + (i + 1) = attempt + 1 + i from by omega] at this)]
    rw [List.range_succ_eq_map, List.map_cons, List.map_map]
    simp only [List.reverse_cons, List.append_assoc, List.singleton_append,
      Prod.mk.injEq]
    refine ⟨trivial, ?_⟩
    have h1 : 5 * (attempt + 0 + 1) = 5 * (attempt + 1) := by omega
    have h2 : List.map ((fun i => 5 * (attempt + i + 1)) ∘ Nat.succ) (List.range n)
        = List.map (fun i => 5 * (attempt + 1 + i + 1)) (List.range n) := by
      apply List.map_congr_left
      intro i _
      simp only [Function.comp]
      omega
    rw [h1, h2]

/-- C8: on a stream of nothing but HTTP 429 responses, `serpapi_search`
retries up to `max_retries` attempts, waiting `5 * attempt_number` seconds
before each retry (backoff base 5, attempt numbers 1..max), and after
exhausting the attempts returns the empty outcome `None` — the caller treats
it as "no results" — without raising. -/
theorem retry_exhaustion_429 (resp : Nat → Nat × α) (m : Nat)
    (h : ∀ i, i < m → (resp i).1 = 429) :
    serpapi_search resp m = (none, (List.range m).map (fun i => 5 * (i + 1))) := by
  have hh := serpGo_all_429 resp m 0 [] (fun i hi => by simpa using h i hi)
  simpa [serpapi_search] using hh

theorem retry_exhaustion_429_witness :
    serpapi_search (fun _ => ((429 : Nat), (0 : Nat))) 3
      = (none, (List.range 3).map (fun i => 5 * (i + 1))) :=
  retry_exhaustion_429 (fun _ => ((429 : Nat), (0 : Nat))) 3 (fun i _ => rfl)

/-- C9: a job title whose accumulated, deduplicated result set is empty
produces no output artifact — `run_for_job` returns before creating either
the TXT report or the Excel sheet exactly when the unique sequence is empty —
and the title loop processes every title regardless, one artifact decision
per title. -/
theorem empty_resultset_no_artifact (titles : List (List (List Job))) :
    (main_artifacts titles).length = titles.length
    ∧ (∀ t ∈ titles,
        (remove_duplicates t.flatten = [] ↔ run_for_job_artifact t = none)) := by
  constructor
  · simp [main_artifacts]
  · intro t _
    unfold run_for_job_artifact
    constructor
    · intro h
      simp [h]
    · intro h
      by_cases he : (remove_duplicates t.flatten).isEmpty
      · rwa [List.isEmpty_iff] at he
      · rw [if_neg (by simp [he])] at h
        simp at h

theorem empty_resultset_no_artifact_witness :
    (main_artifacts [[[]], []]).length = ([[[]], []] : List (List (List Job))).length
    ∧ (∀ t ∈ ([[[]], []] : List (List (List Job))),
        (remove_duplicates t.flatten = [] ↔ run_for_job_artifact t = none)) :=
  empty_resultset_no_artifact [[[]], []]

/-! Extraction lemmas. -/

theorem truthy_eq_some (o : Option Text) (l : Text) (h : truthy o = some l) :
    o = some l := by
  cases o with
  | none => simp [truthy] at h
  | some t =>
    by_cases ht : t = []
    · simp [truthy, ht] at h
    · simp [truthy, ht] at h
      rw [h]

theorem getD_cases (o : Option Text) (d : Text) :
    o.getD d = d ∨ o = some (o.getD d) := by
  cases o with
  | none => left; rfl
  | some t => right; rfl

theorem locOf_cases (i : OrganicItem) :
    locOf i = txt "N/A" ∨ i.location = some (locOf i)
      ∨ i.locality = some (locOf i) := by
  unfold locOf
  cases hl : truthy i.location with
  | some l =>
    right
    left
    exact truthy_eq_some _ _ hl
  | none =>
    cases hl2 : truthy i.locality with
    | some l =>
      right
      right
      exact truthy_eq_some _ _ hl2
    | none =>
      left
      rfl

theorem gjob_url_cases (i : GItem) :
    (gjobOf i).url = txt "N/A"
    ∨ ∃ rest, i.apply_links = some (gjobOf i).url :: rest := by
  cases happ : i.apply_links with
  | nil =>
    left
    simp [gjobOf, happ]
  | cons l0 rest =>
    cases l0 with
    | none =>
      left
      simp [gjobOf, happ]
    | some u =>
      right
      exact ⟨rest, by simp [gjobOf, happ]⟩

theorem extract_jobs_mem (items : List OrganicItem) :
    ∀ j ∈ extract_jobs items, ∃ i ∈ items, j = jobOfOrganic i := by
  induction items with
  | nil =>
    intro j hj
    simp [extract_jobs] at hj
  | cons it rest ih =>
    intro j hj
    simp only [extract_jobs] at hj
    rcases List.mem_cons.mp hj with h | h
    · exact ⟨it, by simp, h⟩
    · obtain ⟨i, hi, he⟩ := ih j h
      exact ⟨i, by simp [hi], he⟩

theorem extract_google_jobs_mem (kws : List Text) (after D : Int) :
    ∀ (items : List GItem) (out : List GJob),
      extract_google_jobs items kws after D = .ok out →
      ∀ j ∈ out, ∃ i ∈ items, j = gjobOf i := by
  intro items
  induction items with
  | nil =>
    intro out hout j hj
    rw [extract_google_jobs] at hout
    cases hout
    simp at hj
  | cons it rest ih =>
    intro out hout j hj
    rw [extract_google_jobs] at hout
    cases hk : g_keep it kws after D with
    | error e =>
      rw [hk] at hout
      cases hout
    | ok keep =>
      rw [hk] at hout
      cases hrest : extract_google_jobs rest kws after D with
      | error e =>
        rw [hrest] at hout
        cases hout
      | ok tail =>
        rw [hrest] at hout
        cases keep with
        | true =>
          dsimp only at hout
          rw [if_pos rfl] at hout
          obtain rfl := Except.ok.inj hout
          rcases List.mem_cons.mp hj with h | h
          · exact ⟨it, by simp, h⟩
          · obtain ⟨i, hi, he⟩ := ih tail hrest j h
            exact ⟨i, by simp [hi], he⟩
        | false =>
          dsimp only at hout
          rw [if_neg (by simp)] at hout
          obtain rfl := Except.ok.inj hout
          obtain ⟨i, hi, he⟩ := ih tail hrest j hj
          exact ⟨i, by simp [hi], he⟩

theorem parse_search_mem (cards : List Card) (jt : Text) (rm er : Bool)
    (rateOf : Text → Text) (D : Int) :
    ∀ r ∈ parse_search cards jt rm er rateOf D,
      ∃ c ∈ cards, r = rowOfCard c jt rm er rateOf D := by
  intro r hr
  rw [parse_search] at hr
  obtain ⟨c, hc, he⟩ := List.mem_map.mp hr
  exact ⟨c, hc, he.symm⟩

/-- C10: every record produced by the three extraction steps has every output
field bound: each field either carries the sentinel substituted for a missing
upstream field ("N/A" for the SerpAPI extractors, "" for the HTML parser) or
the corresponding upstream value (stripped for the HTML parser, lower-cased
for the job-type). Downstream deduplication, report formatting and sheet
writing therefore always find every key populated. -/
theorem extraction_fields_total
    (items : List OrganicItem) (gitems : List GItem) (kws : List Text)
    (after D : Int) (cards : List Card) (jt : Text) (rm er : Bool)
    (rateOf : Text → Text) (today : Int) :
    (∀ j ∈ extract_jobs items,
      (j.title = txt "N/A" ∨ ∃ i ∈ items, i.title = some j.title)
      ∧ (j.url = txt "N/A" ∨ ∃ i ∈ items, i.link = some j.url)
      ∧ (j.snippet = txt "N/A" ∨ ∃ i ∈ items, i.snippet = some j.snippet)
      ∧ (j.company = txt "N/A" ∨ ∃ i ∈ items, i.source = some j.company)
      ∧ (j.posted = txt "N/A" ∨ ∃ i ∈ items, i.date = some j.posted)
      ∧ (j.location = txt "N/A" ∨ ∃ i ∈ items,
          i.location = some j.location ∨ i.locality = some j.location))
    ∧ (∀ out, extract_google_jobs gitems kws after D = .ok out →
        ∀ j ∈ out,
          (j.title = txt "N/A" ∨ ∃ i ∈ gitems, i.title = some j.title)
          ∧ (j.company = txt "N/A" ∨ ∃ i ∈ gitems, i.company_name = some j.company)
          ∧ (j.location = txt "N/A" ∨ ∃ i ∈ gitems, i.location = some j.location)
          ∧ (j.posted = txt "N/A" ∨ ∃ i ∈ gitems, i.posted_at = some j.posted)
          ∧ (j.salary = txt "N/A" ∨ ∃ i ∈ gitems, i.salary = some j.salary)
          ∧ (∃ i ∈ gitems, j.jobtype = lowerT (i.schedule_type.getD []))
          ∧ (j.url = txt "N/A"
              ∨ ∃ i ∈ gitems, ∃ rest, i.apply_links = some j.url :: rest)
          ∧ (j.snippet = txt "N/A" ∨ ∃ i ∈ gitems, i.description = some j.snippet))
    ∧ (∀ r ∈ parse_search cards jt rm er rateOf today,
        r.job_type = jt
        ∧ (r.title = [] ∨ ∃ c ∈ cards, ∃ t, c.title = some t ∧ r.title = stripT t)
        ∧ (r.company = []
            ∨ ∃ c ∈ cards, ∃ t, c.company = some t ∧ r.company = stripT t)
        ∧ (r.posted_raw = []
            ∨ ∃ c ∈ cards, ∃ t, c.posted = some t ∧ r.posted_raw = stripT t)
        ∧ (r.url = [] ∨ ∃ c ∈ cards, ∃ h, c.href = some h
            ∧ r.url = h.takeWhile (fun ch => decide (ch ≠ '?')))) := by
  refine ⟨?_, ?_, ?_⟩
  · intro j hj
    obtain ⟨i, hi, rfl⟩ := extract_jobs_mem items j hj
    refine ⟨?_, ?_, ?_, ?_, ?_, ?_⟩
    · rcases getD_cases i.title (txt "N/A") with h | h
      · exact Or.inl h
      · exact Or.inr ⟨i, hi, h⟩
    · rcases getD_cases i.link (txt "N/A") with h | h
      · exact Or.inl h
      · exact Or.inr ⟨i, hi, h⟩
    · rcases getD_cases i.snippet (txt "N/A") with h | h
      · exact Or.inl h
      · exact Or.inr ⟨i, hi, h⟩
    · rcases getD_cases i.source (txt "N/A") with h | h
      · exact Or.inl h
      · exact Or.inr ⟨i, hi, h⟩
    · rcases getD_cases i.date (txt "N/A") with h | h
      · exact Or.inl h
      · exact Or.inr ⟨i, hi, h⟩
    · rcases locOf_cases i with h | h
      · exact Or.inl h
      · exact Or.inr ⟨i, hi, h⟩
  · intro out hout j hj
    obtain ⟨i, hi, rfl⟩ := extract_google_jobs_mem kws after D gitems out hout j hj
    refine ⟨?_, ?_, ?_, ?_, ?_, ⟨i, hi, rfl⟩, ?_, ?_⟩
    · rcases getD_cases i.title (txt "N/A") with h | h
      · exact Or.inl h
      · exact Or.inr ⟨i, hi, h⟩
    · rcases getD_cases i.company_name (txt "N/A") with h | h
      · exact Or.inl h
      · exact Or.inr ⟨i, hi, h⟩
    · rcases getD_cases i.location (txt "N/A") with h | h
      · exact Or.inl h
      · exact Or.inr ⟨i, hi, h⟩
    · rcases getD_cases i.posted_at (txt "N/A") with h | h
      · exact Or.inl h
      · exact Or.inr ⟨i, hi, h⟩
    · rcases getD_cases i.salary (txt "N/A") with h | h
      · exact Or.inl h
      · exact Or.inr ⟨i, hi, h⟩
    · rcases gjob_url_cases i with h | ⟨rest, h⟩
      · exact Or.inl h
      · exact Or.inr ⟨i, hi, rest, h⟩
    · rcases getD_cases i.description (txt "N/A") with h | h
      · exact Or.inl h
      · exact Or.inr ⟨i, hi, h⟩
  · intro r hr
    obtain ⟨c, hc, rfl⟩ := parse_search_mem cards jt rm er rateOf today r hr
    refine ⟨rfl, ?_, ?_, ?_, ?_⟩
    · cases ht : c.title with
      | none => exact Or.inl (by simp [rowOfCard, ht])
      | some t => exact Or.inr ⟨c, hc, t, ht, by simp [rowOfCard, ht]⟩
    · cases ht : c.company with
      | none => exact Or.inl (by simp [rowOfCard, ht])
      | some t => exact Or.inr ⟨c, hc, t, ht, by simp [rowOfCard, ht]⟩
    · cases ht : c.posted with
      | none => exact Or.inl (by simp [rowOfCard, ht])
      | some t => exact Or.inr ⟨c, hc, t, ht, by simp [rowOfCard, ht]⟩
    · cases ht : c.href with
      | none => exact Or.inl (by simp [rowOfCard, ht])
      | some h => exact Or.inr ⟨c, hc, h, ht, by simp [rowOfCard, ht]⟩

theorem extraction_fields_total_witness :
    extract_jobs [sampleOrganic]
      = [{ title := txt "Dev", url := txt "http://x/1", snippet := txt "N/A",
           company := txt "Acme", location := txt "NYC", posted := txt "N/A" }]
    ∧ extract_google_jobs [sampleGItem] [] 0 5
      = .ok [{ title := txt "T", company := txt "N/A", location := txt "N/A",
               posted := txt "2 days ago", salary := txt "N/A",
               jobtype := txt "full-time", url := txt "http://apply/1",
               snippet := txt "desc" }]
    ∧ parse_search [sampleCard] (txt "ft") false false (fun _ => ([] : Text)) 0
      = [{ title := txt "T1", company := [], location := txt "Loc",
           job_type := txt "ft", posted := .date (-2),
           posted_raw := txt "2 days ago", rate := [], url := txt "http://a" }]
    ∧ ((∀ j ∈ extract_jobs [sampleOrganic],
      (j.title = txt "N/A" ∨ ∃ i ∈ [sampleOrganic], i.title = some j.title)
      ∧ (j.url = txt "N/A" ∨ ∃ i ∈ [sampleOrganic], i.link = some j.url)
      ∧ (j.snippet = txt "N/A" ∨ ∃ i ∈ [sampleOrganic], i.snippet = some j.snippet)
      ∧ (j.company = txt "N/A" ∨ ∃ i ∈ [sampleOrganic], i.source = some j.company)
      ∧ (j.posted = txt "N/A" ∨ ∃ i ∈ [sampleOrganic], i.date = some j.posted)
      ∧ (j.location = txt "N/A" ∨ ∃ i ∈ [sampleOrganic],
          i.location = some j.location ∨ i.locality = some j.location))
    ∧ (∀ out, extract_google_jobs [sampleGItem] [] 0 5 = .ok out →
        ∀ j ∈ out,
          (j.title = txt "N/A" ∨ ∃ i ∈ [sampleGItem], i.title = some j.title)
          ∧ (j.company = txt "N/A" ∨ ∃ i ∈ [sampleGItem], i.company_name = some j.company)
          ∧ (j.location = txt "N/A" ∨ ∃ i ∈ [sampleGItem], i.location = some j.location)
          ∧ (j.posted = txt "N/A" ∨ ∃ i ∈ [sampleGItem], i.posted_at = some j.posted)
          ∧ (j.salary = txt "N/A" ∨ ∃ i ∈ [sampleGItem], i.salary = some j.salary)
          ∧ (∃ i ∈ [sampleGItem], j.jobtype = lowerT (i.schedule_type.getD []))
          ∧ (j.url = txt "N/A"
              ∨ ∃ i ∈ [sampleGItem], ∃ rest, i.apply_links = some j.url :: rest)
          ∧ (j.snippet = txt "N/A" ∨ ∃ i ∈ [sampleGItem], i.description = some j.snippet))
    ∧ (∀ r ∈ parse_search [sampleCard] (txt "ft") false false (fun _ => ([] : Text)) 0,
        r.job_type = txt "ft"
        ∧ (r.title = [] ∨ ∃ c ∈ [sampleCard], ∃ t, c.title = some t ∧ r.title = stripT t)
        ∧ (r.company = []
            ∨ ∃ c ∈ [sampleCard], ∃ t, c.company = some t ∧ r.company = stripT t)
        ∧ (r.posted_raw = []
            ∨ ∃ c ∈ [sampleCard], ∃ t, c.posted = some t ∧ r.posted_raw = stripT t)
        ∧ (r.url = [] ∨ ∃ c ∈ [sampleCard], ∃ h, c.href = some h
            ∧ r.url = h.takeWhile (fun ch => decide (ch ≠ '?'))))) :=
  ⟨rfl, rfl, rfl,
    extraction_fields_total [sampleOrganic] [sampleGItem] [] 0 5 [sampleCard]
      (txt "ft") false false (fun _ => []) 0⟩
